import Mathlib

/-!
Verification of the PII detection-and-classification pipeline
(`src/main.py` of the Classificador-de-dados-sensiveis repository).

The Python source is embedded shallowly:

* text is `String` / `List Char`;
* each regular expression of the source is embedded as an executable
  backtracking matcher over `List Char`, faithful to Python `re` semantics
  (leftmost scan, greedy quantifiers with backtracking, word boundaries,
  non-overlapping `findall`);
* the PII mapping (a Python `dict`) is a function `String → Option (List String)`;
* the spaCy named-entity recognizer is an external collaborator and is a
  parameter `ner : String → List (String × String)` giving each entity
  span's text and label;
* Python character classes (`\w`, `\d`, `\s`, `str.lower`, `str.isupper`,
  `str.strip`) are modelled over ASCII plus the Latin-1 letters actually
  used by the vocabularies and texts of this repository.
-/

namespace Pii

/-- Python `\w` (word character) over ASCII and Latin-1: letters, digits,
underscore, and the accented letters `À`–`ÿ` (excluding `×` and `÷`). -/
def isWordChar (ch : Char) : Bool :=
  ch.isAlphanum || ch == '_' ||
    (0xC0 ≤ ch.toNat && ch.toNat ≤ 0xFF && ch.toNat != 0xD7 && ch.toNat != 0xF7)

/-- Python `\s` / `str.strip()` whitespace over the characters this
repository can meet: ASCII whitespace, NEL and the non-breaking space. -/
def isPyWs (ch : Char) : Bool :=
  ch == ' ' || ch == '\t' || ch == '\n' || ch == '\r' ||
    ch.toNat == 11 || ch.toNat == 12 || ch.toNat == 0x85 || ch.toNat == 0xA0

/-- Python `str.lower` over ASCII and Latin-1 (`À`–`Þ` map to `à`–`þ`,
the multiplication sign `×` is not a letter and is left unchanged). -/
def lowerChar (ch : Char) : Char :=
  if 'A' ≤ ch && ch ≤ 'Z' then Char.ofNat (ch.toNat + 32)
  else if 0xC0 ≤ ch.toNat && ch.toNat ≤ 0xDE && ch.toNat != 0xD7 then
    Char.ofNat (ch.toNat + 32)
  else ch

/-- Python `str.isupper` for a single character, over ASCII and Latin-1. -/
def isUpperPy (ch : Char) : Bool :=
  ('A' ≤ ch && ch ≤ 'Z') ||
    (0xC0 ≤ ch.toNat && ch.toNat ≤ 0xDE && ch.toNat != 0xD7)

def lowerL (l : List Char) : List Char := l.map lowerChar

def lowerPyS (s : String) : String := String.mk (lowerL s.data)

/-- `needle` is a prefix of `hay` (plain character comparison). -/
def startsWithL : List Char → List Char → Bool
  | [], _ => true
  | _ :: _, [] => false
  | n :: ns, h :: hs => n == h && startsWithL ns hs

/-- Python substring containment `needle in hay`. -/
def containsL (needle : List Char) : List Char → Bool
  | [] => needle.isEmpty
  | h :: hs => startsWithL needle (h :: hs) || containsL needle hs

def startsWithS (needle s : String) : Bool := startsWithL needle.data s.data

def containsS (needle s : String) : Bool := containsL needle.data s.data

/-- Python `str.split()`: split on runs of whitespace, dropping empties
(accumulator-based so that it is structurally recursive). -/
def splitWsAux : List Char → List Char → List (List Char)
  | acc, [] => if acc.isEmpty then [] else [acc.reverse]
  | acc, ch :: rest =>
    if isPyWs ch then
      if acc.isEmpty then splitWsAux [] rest
      else acc.reverse :: splitWsAux [] rest
    else splitWsAux (ch :: acc) rest

def splitWs (l : List Char) : List (List Char) := splitWsAux [] l

def splitWsS (s : String) : List String := (splitWs s.data).map String.mk

/-- Python `" ".join(tokens)`. -/
def joinSpace : List (List Char) → List Char
  | [] => []
  | [t] => t
  | t :: rest => t ++ ' ' :: joinSpace rest

def joinSpaceS (ts : List String) : String :=
  String.mk (joinSpace (ts.map String.data))

/-- `list(set(xs))` with first-occurrence order: set semantics for
membership, which is all the pipeline depends on. -/
def dedupAux (seen : List String) : List String → List String
  | [] => []
  | x :: r => if x ∈ seen then dedupAux seen r else x :: dedupAux (x :: seen) r

/-- Drop trailing characters satisfying `p`. -/
def dropTrailWhile (p : Char → Bool) (l : List Char) : List Char :=
  (l.reverse.dropWhile p).reverse

/-- Python `str.strip()`. -/
def pyStrip (l : List Char) : List Char :=
  dropTrailWhile isPyWs (l.dropWhile isPyWs)

def pyStripS (s : String) : String := String.mk (pyStrip s.data)

/-- Python `str.strip(":")`. -/
def stripColonS (s : String) : String :=
  String.mk (dropTrailWhile (· == ':') (s.data.dropWhile (· == ':')))

-- =========================================================
-- CONSTANTS / CONFIGURATION (src/main.py lines 26-92)
-- =========================================================

def PALAVRAS_PROIBIDAS : List String :=
  ["associação", "associados", "advogados",
   "sociedade", "servidores", "setor",
   "recursos", "coletiva", "magistério",
   "telefônicas", "amostra", "total",
   "temperatura", "fósforo", "nitrogênio",
   "oxigênio", "validador", "sólidos",
   "totais", "gostaria", "gostar", "venho"]

def PREPOSICOES_NOME : List String := ["da", "de", "do", "das", "dos", "e"]

def TITULOS : List String :=
  ["dr", "dr.", "dra", "dra.",
   "sr", "sr.", "sra", "sra.",
   "prof", "prof.", "profª", "profª.",
   "doutor", "doutora", "doutorª",
   "doutorª.", "doutor.", "doutora."]

def SUFIXOS_LIXO : List String := ["cpf", "cnh", "rg", "nome"]

def TRATAMENTOS_FORMAIS : List String :=
  ["vossa senhoria", "vossa excelência", "vossa magnificência",
   "vossa alteza", "vossa santidade",
   "v. s.", "v.s.", "v. exa.", "v.exa.", "v. exª", "v.exª",
   "ilustríssimo senhor", "ilustríssima senhora",
   "excelentíssimo senhor", "excelentíssima senhora",
   "digníssimo senhor", "digníssima senhora",
   "meritíssimo juiz", "meritíssima juíza",
   "senhor secretário", "senhora secretária",
   "senhor ministro", "senhora ministra",
   "senhor governador", "senhora governadora",
   "senhor prefeito", "senhora prefeita",
   "senhor presidente", "senhora presidente",
   "senhor juiz", "senhora juíza",
   "senhor desembargador", "senhora desembargadora",
   "senhor promotor", "senhora promotora",
   "senhor procurador", "senhora procuradora",
   "ilustres senhores", "ilustres senhoras",
   "vossas senhorias", "vossas excelências"]

-- =========================================================
-- TEXT NORMALIZATION (src/main.py line 99)
-- =========================================================

/-- `text.strip().replace(" ", " ")`. -/
def normalize (text : String) : String :=
  String.mk ((pyStrip text.data).map (fun ch => if ch.toNat == 0xA0 then ' ' else ch))

-- =========================================================
-- NAME CLEANING UTILITIES (src/main.py lines 110-126)
-- =========================================================

/-- The `while tokens and tokens[-1].lower().strip(":") in SUFIXOS_LIXO:
tokens.pop()` loop of `limpar_sufixos`, on the reversed token list. -/
def dropSufixosRev : List String → List String
  | [] => []
  | t :: rest =>
    if stripColonS (lowerPyS t) ∈ SUFIXOS_LIXO then dropSufixosRev rest
    else t :: rest

def limpar_sufixos (nome : String) : String :=
  joinSpaceS ((dropSufixosRev (splitWsS nome).reverse).reverse)

def limpar_titulos (nome : String) : String :=
  joinSpaceS ((splitWsS nome).filter (fun t => !(lowerPyS t ∈ TITULOS : Bool)))

-- =========================================================
-- NAME VALIDATION LOGIC (src/main.py lines 133-160)
-- =========================================================

/-- First character of a token (`tok[0]`); tokens produced by `split()` are
never empty, so the default is irrelevant. -/
def headCharD (s : String) : Char := s.data.headD ' '

def nome_valido (nome : String) : Bool :=
  let tokens := splitWsS nome
  if tokens.length < 2 || 7 < tokens.length then false
  else if lowerPyS (tokens.headD "") ∈ (["nossa", "nosso", "suas", "seus"] : List String) then false
  else if tokens.headD "" == tokens.getLastD "" then false
  else tokens.all (fun tok =>
    let tokLower := lowerPyS tok
    if tokLower ∈ PREPOSICOES_NOME then true
    else if tokLower ∈ PALAVRAS_PROIBIDAS then false
    else isUpperPy (headCharD tok))

-- =========================================================
-- NAME EXTRACTION (src/main.py lines 167-191)
-- spaCy is external: `ner text` returns the entity spans (text, label).
-- =========================================================

def extract_names (ner : String → List (String × String)) (text : String) :
    List String :=
  dedupAux [] ((ner text).filterMap (fun ent =>
    if ent.2 != "PER" then none
    else
      let raw := pyStripS ent.1
      if TRATAMENTOS_FORMAIS.any (fun t => startsWithS t (lowerPyS raw)) then none
      else
        let clean := limpar_sufixos (limpar_titulos raw)
        if nome_valido clean then some clean else none))

-- =========================================================
-- REGEX PATTERNS (src/main.py lines 198-204), embedded as
-- executable backtracking matchers over `List Char`.
-- =========================================================

/-- `\b` seen from inside a match: true when the next character is a word
character (string end counts as non-word). -/
def isWordB : List Char → Bool
  | [] => false
  | ch :: _ => isWordChar ch

/-- After a character that is certainly a word character, `\b` holds iff
the remaining text does not begin with a word character. -/
def boundaryOk (l : List Char) : Bool := !isWordB l

/-- Greedy optional literal character (`c?`); deterministic whenever the
continuation cannot consume `c`. -/
def optChar (c : Char) : List Char → List Char × List Char
  | [] => ([], [])
  | x :: rest => if x == c then ([x], rest) else ([], x :: rest)

/-- `\d{3}`. -/
def digits3 : List Char → Option (List Char × List Char)
  | a :: b :: c :: rest =>
    if a.isDigit && b.isDigit && c.isDigit then some ([a, b, c], rest) else none
  | _ => none

/-- `\d{1,2}\b` (greedy, with the backtracking from two digits to one
collapsed: if two digits are available the one-digit fallback always fails
`\b` because the second digit is a word character). -/
def cpfTail : List Char → Option (List Char × List Char)
  | [] => none
  | d1 :: rest =>
    if d1.isDigit then
      match rest with
      | [] => some ([d1], [])
      | d2 :: rest2 =>
        if d2.isDigit then
          if boundaryOk rest2 then some ([d1, d2], rest2) else none
        else if boundaryOk rest then some ([d1], rest) else none
    else none

/-- `CPF = \b\d{3}\.?\d{3}\.?\d{3}-?\d{1,2}\b` without the leading `\b`
(handled by the scanner): match at the head of the input, returning the
matched fragment and the rest. -/
def cpfMatchCore (cs : List Char) : Option (List Char × List Char) :=
  match digits3 cs with
  | none => none
  | some (g1, r1) =>
    let p1 := optChar '.' r1
    match digits3 p1.2 with
    | none => none
    | some (g2, r3) =>
      let p2 := optChar '.' r3
      match digits3 p2.2 with
      | none => none
      | some (g3, r5) =>
        let p3 := optChar '-' r5
        match cpfTail p3.2 with
        | none => none
        | some (t, r7) => some (g1 ++ p1.1 ++ g2 ++ p2.1 ++ g3 ++ p3.1 ++ t, r7)

/-- `\.?\d{3}\.?\d{3}-?[0-9Xx]\b`: tail of the RG pattern after its
leading digit group. -/
def rgAfter (cs : List Char) : Option (List Char × List Char) :=
  let p1 := optChar '.' cs
  match digits3 p1.2 with
  | none => none
  | some (g1, r2) =>
    let p2 := optChar '.' r2
    match digits3 p2.2 with
    | none => none
    | some (g2, r4) =>
      let p3 := optChar '-' r4
      match p3.2 with
      | [] => none
      | x :: r6 =>
        if (x.isDigit || x == 'X' || x == 'x') && boundaryOk r6 then
          some (p1.1 ++ g1 ++ p2.1 ++ g2 ++ p3.1 ++ [x], r6)
        else none

/-- `RG = \b\d{1,2}\.?\d{3}\.?\d{3}-?[0-9Xx]\b` without the leading `\b`:
the `\d{1,2}` is greedy, falling back from two leading digits to one. -/
def rgMatchCore : List Char → Option (List Char × List Char)
  | [] => none
  | a :: rest =>
    if a.isDigit then
      match rest with
      | [] => none
      | b :: rest2 =>
        if b.isDigit then
          match rgAfter rest2 with
          | some (m, r) => some (a :: b :: m, r)
          | none =>
            match rgAfter rest with
            | some (m, r) => some (a :: m, r)
            | none => none
        else
          match rgAfter rest with
          | some (m, r) => some (a :: m, r)
          | none => none
    else none

/-- Character class `[A-Za-z0-9._%+-]` (email local part). -/
def isLocalChar (ch : Char) : Bool :=
  ch.isAlphanum || ch == '.' || ch == '_' || ch == '%' || ch == '+' || ch == '-'

/-- Character class `[A-Za-z0-9.-]` (email domain). -/
def isDomChar (ch : Char) : Bool :=
  ch.isAlphanum || ch == '.' || ch == '-'

def isAsciiLetter (ch : Char) : Bool :=
  ('A' ≤ ch && ch ≤ 'Z') || ('a' ≤ ch && ch ≤ 'z')

/-- `\.[A-Za-z]{2,}\b` at the head of the input: the letter run is maximal
(shrinking it can never restore `\b`, since the preceding character would
still be a letter). -/
def emailDotAt : List Char → Option (List Char × List Char)
  | '.' :: rest =>
    let letters := rest.takeWhile isAsciiLetter
    let r2 := rest.dropWhile isAsciiLetter
    if 2 ≤ letters.length && boundaryOk r2 then some ('.' :: letters, r2) else none
  | _ => none

/-- `[A-Za-z0-9.-]*\.[A-Za-z]{2,}\b` with the star greedy: consume as many
domain characters as possible, backtracking to the rightmost position where
the final `\.[A-Za-z]{2,}\b` succeeds. -/
def emailDomStar : List Char → Option (List Char × List Char)
  | [] => none
  | ch :: rest =>
    if isDomChar ch then
      match emailDomStar rest with
      | some (m, r) => some (ch :: m, r)
      | none => emailDotAt (ch :: rest)
    else emailDotAt (ch :: rest)

/-- The part after `@`: `[A-Za-z0-9.-]+\.[A-Za-z]{2,}\b` (at least one
domain character before the backtracking star). -/
def emailAfterAt : List Char → Option (List Char × List Char)
  | [] => none
  | ch :: rest =>
    if isDomChar ch then
      match emailDomStar rest with
      | some (m, r) => some (ch :: m, r)
      | none => none
    else none

/-- `EMAIL = \b[A-Za-z0-9._%+-]+@[A-Za-z0-9.-]+\.[A-Za-z]{2,}\b` without
the leading `\b`: the local-part run is maximal (its class excludes `@`,
so backtracking it can never help). -/
def emailMatchCore (cs : List Char) : Option (List Char × List Char) :=
  let locals := cs.takeWhile isLocalChar
  let rest1 := cs.dropWhile isLocalChar
  if locals.isEmpty then none
  else
    match rest1 with
    | '@' :: rest2 =>
      match emailAfterAt rest2 with
      | some (dm, r) => some (locals ++ '@' :: dm, r)
      | none => none
    | _ => none

/-- Python `\s` for the phone/address patterns. -/
def isSpaceRe (ch : Char) : Bool := isPyWs ch

/-- Greedy `\s?`. -/
def optSpace : List Char → List Char × List Char
  | [] => ([], [])
  | ch :: rest => if isSpaceRe ch then ([ch], rest) else ([], ch :: rest)

/-- `\d{4}`. -/
def tel4 : List Char → Option (List Char × List Char)
  | a :: b :: c :: d :: rest =>
    if a.isDigit && b.isDigit && c.isDigit && d.isDigit then
      some ([a, b, c, d], rest)
    else none
  | _ => none

/-- `\d{4}-?\d{4}\b` (the `-?` is deterministic: `-` is not a digit). -/
def telFinal (cs : List Char) : Option (List Char × List Char) :=
  match tel4 cs with
  | none => none
  | some (g1, r1) =>
    let p := optChar '-' r1
    match tel4 p.2 with
    | none => none
    | some (g2, r3) =>
      if boundaryOk r3 then some (g1 ++ p.1 ++ g2, r3) else none

/-- `9?\d{4}-?\d{4}\b` (greedy `9?`: try consuming a leading `9` first). -/
def telNine (cs : List Char) : Option (List Char × List Char) :=
  match cs with
  | '9' :: r =>
    (match telFinal r with
     | some (m, r2) => some ('9' :: m, r2)
     | none => telFinal cs)
  | _ => telFinal cs

/-- The optional area-code group `\(?\d{2}\)?\s?`: each optional element
is deterministic because no continuation character can replace it. -/
def telArea (cs : List Char) : Option (List Char × List Char) :=
  let p := optChar '(' cs
  match p.2 with
  | a :: b :: r1 =>
    if a.isDigit && b.isDigit then
      let q := optChar ')' r1
      let s := optSpace q.2
      some (p.1 ++ [a, b] ++ q.1 ++ s.1, s.2)
    else none
  | _ => none

/-- `(?:\(?\d{2}\)?\s?)?9?\d{4}-?\d{4}\b`: try the area group first, and
if its continuation fails, retry without it. -/
def telAreaPart (cs : List Char) : Option (List Char × List Char) :=
  match telArea cs with
  | some (m, r) =>
    (match telNine r with
     | some (m2, r2) => some (m ++ m2, r2)
     | none => telNine cs)
  | none => telNine cs

/-- `\+55\s?`. -/
def telPlus (cs : List Char) : Option (List Char × List Char) :=
  match cs with
  | '+' :: '5' :: '5' :: r =>
    let s := optSpace r
    some ('+' :: '5' :: '5' :: s.1, s.2)
  | _ => none

/-- `TELEFONE = \b(?:\+55\s?)?(?:\(?\d{2}\)?\s?)?9?\d{4}-?\d{4}\b` without
the leading `\b`. -/
def telMatchCore (cs : List Char) : Option (List Char × List Char) :=
  match telPlus cs with
  | some (m, r) =>
    (match telAreaPart r with
     | some (m2, r2) => some (m ++ m2, r2)
     | none => telAreaPart cs)
  | none => telAreaPart cs

/-- Case-insensitive literal keyword match (the keyword is given in lower
case); returns the original characters consumed. -/
def ciMatchKw : List Char → List Char → Option (List Char × List Char)
  | [], cs => some ([], cs)
  | _ :: _, [] => none
  | k :: ks, ch :: rest =>
    if lowerChar ch == k then
      match ciMatchKw ks rest with
      | some (m, r) => some (ch :: m, r)
      | none => none
    else none

/-- Character class `[A-Za-zÀ-ÿ0-9\s]` of the LOGRADOURO free-text part. -/
def isLogCh (ch : Char) : Bool :=
  isAsciiLetter ch || ch.isDigit || isSpaceRe ch ||
    (0xC0 ≤ ch.toNat && ch.toNat ≤ 0xFF)

/-- `\s+[A-Za-zÀ-ÿ0-9\s]{3,}` after a street keyword: the class contains
whitespace, so the whole thing is the maximal class run, provided it starts
with whitespace and has length at least 4 (one `\s` plus three more). -/
def logAfterKw (cs : List Char) : Option (List Char × List Char) :=
  match cs with
  | [] => none
  | ch :: _ =>
    if isSpaceRe ch then
      let run := cs.takeWhile isLogCh
      if 4 ≤ run.length then some (run, cs.dropWhile isLogCh) else none
    else none

/-- Alternation over keywords, each with a full continuation, in the
pattern's left-to-right order (Python backtracks across alternatives). -/
def tryKws (cont : List Char → Option (List Char × List Char)) :
    List (List Char) → List Char → Option (List Char × List Char)
  | [], _ => none
  | kw :: kws, cs =>
    match ciMatchKw kw cs with
    | some (m, r) =>
      (match cont r with
       | some (m2, r2) => some (m ++ m2, r2)
       | none => tryKws cont kws cs)
    | none => tryKws cont kws cs

/-- The alternatives of
`(?:Rua|R\.|Avenida|Av\.?|Travessa|Tv\.?|Alameda|Estrada|Rodovia)`, with
each greedy `\.?` expanded into its two alternatives in backtracking
order. -/
def LOGR_KWS : List (List Char) :=
  [['r','u','a'], ['r','.'], ['a','v','e','n','i','d','a'],
   ['a','v','.'], ['a','v'], ['t','r','a','v','e','s','s','a'],
   ['t','v','.'], ['t','v'], ['a','l','a','m','e','d','a'],
   ['e','s','t','r','a','d','a'], ['r','o','d','o','v','i','a']]

/-- `LOGRADOURO` without the leading `\b` (case-insensitive). The pattern
has no capturing group, so `findall` yields the whole match. -/
def logMatchCore (cs : List Char) : Option (List Char × List Char) :=
  tryKws logAfterKw LOGR_KWS cs

/-- Character class `[A-Za-z0-9\-]` of the QUADRA_LOTE identifier. -/
def isIdCh (ch : Char) : Bool := ch.isAlphanum || ch == '-'

/-- Trailing `\b` after a greedy `[A-Za-z0-9\-]+`: give back characters
from the end of the run (kept reversed) until the word boundary between
the last kept character and the rest holds; at least one character must
remain. -/
def shrinkB : List Char → List Char → Option (List Char × List Char)
  | [], _ => none
  | x :: runRev, rest =>
    if isWordChar x != isWordB rest then some ((x :: runRev).reverse, rest)
    else shrinkB runRev (x :: rest)

/-- `\s*[A-Za-z0-9\-]+\b` after a QUADRA_LOTE keyword. -/
def qlAfterKw (cs : List Char) : Option (List Char × List Char) :=
  let sp := cs.takeWhile isSpaceRe
  let r1 := cs.dropWhile isSpaceRe
  let run := r1.takeWhile isIdCh
  let r2 := r1.dropWhile isIdCh
  match shrinkB run.reverse r2 with
  | some (idPart, rest) => some (sp ++ idPart, rest)
  | none => none

/-- The alternatives of `(Qd\.?|Quadra|Lt\.?|Lote|Bloco|BLC|Conjunto|CJ)`
in backtracking order. -/
def QL_KWS : List (List Char) :=
  [['q','d','.'], ['q','d'], ['q','u','a','d','r','a'],
   ['l','t','.'], ['l','t'], ['l','o','t','e'],
   ['b','l','o','c','o'], ['b','l','c'],
   ['c','o','n','j','u','n','t','o'], ['c','j']]

/-- `QUADRA_LOTE` without the leading `\b` (case-insensitive). The keyword
alternation is a CAPTURING group, so `findall` yields only the group: the
matcher returns `(group, whole match, rest)`. -/
def qlTry : List (List Char) → List Char →
    Option (List Char × List Char × List Char)
  | [], _ => none
  | kw :: kws, cs =>
    match ciMatchKw kw cs with
    | some (m, r) =>
      (match qlAfterKw r with
       | some (m2, r2) => some (m, m ++ m2, r2)
       | none => qlTry kws cs)
    | none => qlTry kws cs

def qlMatchCore (cs : List Char) : Option (List Char × List Char × List Char) :=
  qlTry QL_KWS cs

-- =========================================================
-- GENERIC `findall` SCANNER
-- =========================================================

/-- `pattern.findall(text)` for a pattern of the form `\bREST`: at each
position a word boundary holds iff the word-character status changes
between the previous character (`prevW`; string start counts as non-word)
and the current one; only then is a match attempted. On a match the scan
resumes after it (non-overlapping matches); matches are never empty. The
matcher returns `(emitted result, whole match, rest)`. Fuel is the length
of the text, which bounds the number of steps. -/
def scanAll (mc : List Char → Option (List Char × List Char × List Char)) :
    Nat → Bool → List Char → List (List Char)
  | 0, _, _ => []
  | _ + 1, _, [] => []
  | fuel + 1, prevW, ch :: rest =>
    if prevW == isWordChar ch then scanAll mc fuel (isWordChar ch) rest
    else
      match mc (ch :: rest) with
      | some (emit, whole, r) =>
        emit :: scanAll mc fuel (isWordChar (whole.getLastD ' ')) r
      | none => scanAll mc fuel (isWordChar ch) rest

/-- Wrap an ordinary matcher (whole match emitted). -/
def mcWhole (mc : List Char → Option (List Char × List Char)) :
    List Char → Option (List Char × List Char × List Char) :=
  fun cs =>
    match mc cs with
    | some (m, r) => some (m, m, r)
    | none => none

def cpfFindall (l : List Char) : List (List Char) :=
  scanAll (mcWhole cpfMatchCore) l.length false l

def rgFindall (l : List Char) : List (List Char) :=
  scanAll (mcWhole rgMatchCore) l.length false l

def emailFindall (l : List Char) : List (List Char) :=
  scanAll (mcWhole emailMatchCore) l.length false l

def telFindall (l : List Char) : List (List Char) :=
  scanAll (mcWhole telMatchCore) l.length false l

def logFindall (l : List Char) : List (List Char) :=
  scanAll (mcWhole logMatchCore) l.length false l

def qlFindall (l : List Char) : List (List Char) :=
  scanAll qlMatchCore l.length false l

def cpfFindallS (t : String) : List String := (cpfFindall t.data).map String.mk
def rgFindallS (t : String) : List String := (rgFindall t.data).map String.mk
def emailFindallS (t : String) : List String := (emailFindall t.data).map String.mk
def telFindallS (t : String) : List String := (telFindall t.data).map String.mk
def logFindallS (t : String) : List String := (logFindall t.data).map String.mk
def qlFindallS (t : String) : List String := (qlFindall t.data).map String.mk

-- =========================================================
-- GENERIC REGEX EXTRACTION / TYPE VALIDATORS
-- (src/main.py lines 210-264)
-- =========================================================

def endereco_valido (e : String) : Bool :=
  let eLower := lowerL e.data
  let temLogradouro :=
    (["rua", "avenida", "av", "quadra", "lote", "bloco"] : List String).any
      (fun p => containsL p.data eLower)
  let temNumero := e.data.any Char.isDigit
  temLogradouro && temNumero

/-- `re.sub(r"\D", "", s)`: keep only the digits. -/
def soDigitos (s : String) : List Char := s.data.filter Char.isDigit

/-- Numeric value of the first two digit characters (`int(digits[:2])`;
only reached when at least ten digits are present). -/
def dddValor : List Char → Nat
  | a :: b :: _ => (a.toNat - 48) * 10 + (b.toNat - 48)
  | [a] => a.toNat - 48
  | [] => 0

def telefone_valido (tel : String) : Bool :=
  let digits := soDigitos tel
  if digits.length == 10 || digits.length == 11 then
    let ddd := dddValor digits
    11 ≤ ddd && ddd ≤ 99
  else false

/-- One character of the candidate string used as a pattern by
`re.finditer(rg, text)`: `.` is the wildcard (anything but newline), all
other characters that can occur in an RG match are literals. -/
def patCharMatches (p ch : Char) : Bool :=
  if p == '.' then ch != '\n' else p == ch

/-- Match the candidate-as-pattern at the head of the input, returning the
consumed characters and the rest. -/
def patMatchAt : List Char → List Char → Option (List Char × List Char)
  | [], s => some ([], s)
  | _ :: _, [] => none
  | p :: ps, ch :: s =>
    if patCharMatches p ch then
      match patMatchAt ps s with
      | some (m, r) => some (ch :: m, r)
      | none => none
    else none

/-- `re.finditer(pat, text)` for a fixed-length wildcard pattern, emitting
for every (non-overlapping, leftmost) match the window
`text[max(0, start-15):start]` that `rg_valido` inspects. `seenRev` holds
the already-scanned characters in reverse. -/
def rgFindWindows (pat : List Char) : Nat → List Char → List Char →
    List (List Char)
  | 0, _, _ => []
  | _ + 1, _, [] => []
  | fuel + 1, seenRev, ch :: rest =>
    match patMatchAt pat (ch :: rest) with
    | some (m, r) =>
      (seenRev.take 15).reverse :: rgFindWindows pat fuel (m.reverse ++ seenRev) r
    | none => rgFindWindows pat fuel (ch :: seenRev) rest

/-- The contextual windows of all occurrences of the candidate in the
text. -/
def rgJanelas (rg text : String) : List (List Char) :=
  rgFindWindows rg.data text.data.length [] text.data

/-- The keyword test on one (lower-cased) window. -/
def janelaTemContexto (w : List Char) : Bool :=
  (["rg", "registro geral", "identidade"] : List String).any
    (fun p => containsL p.data (lowerL w))

def rg_valido (rg text : String) : Bool :=
  let rgNorm := soDigitos rg
  if 7 ≤ rgNorm.length && rgNorm.length ≤ 9 then
    (rgJanelas rg text).any janelaTemContexto
  else false

def cpf_formato_valido (cpf : String) : Bool :=
  (soDigitos cpf).length == 11

/-- `extract(pattern, text) = list(set(pattern.findall(text)))`. -/
def extractDedup (found : List String) : List String := dedupAux [] found

def extract_endereco (text : String) : List String :=
  (extractDedup (logFindallS text ++ qlFindallS text)).filter endereco_valido

-- =========================================================
-- PII DETECTION (src/main.py lines 272-295)
-- =========================================================

/-- The Python `dict` from PII type to validated values. -/
def PIIDict : Type := String → Option (List String)

/-- `pii.get(k, [])`. -/
def dget (pii : PIIDict) (k : String) : List String := (pii k).getD []

/-- `pii[k] = v`. -/
def dset (pii : PIIDict) (k : String) (v : List String) : PIIDict :=
  fun q => if q = k then some v else pii q

def extract_all (text : String) : PIIDict :=
  fun k =>
    if k = "cpf" then
      some ((extractDedup (cpfFindallS text)).filter cpf_formato_valido)
    else if k = "rg" then
      some ((extractDedup (rgFindallS text)).filter (fun r => rg_valido r text))
    else if k = "email" then
      some (extractDedup (emailFindallS text))
    else if k = "telefone" then
      some ((extractDedup (telFindallS text)).filter telefone_valido)
    else if k = "endereco" then
      some (extract_endereco text)
    else none

-- =========================================================
-- CLASSIFICATION / CONFLICT RESOLUTION (src/main.py lines 302-320)
-- =========================================================

/-- One field pass of `resolver_conflitos`: keep the values not yet in
`usados`, adding the kept ones to it (a Python `set`, modelled by a list
with membership). Returns `(filtrados, usados')`. -/
def filtrarNaoUsados : List String → List String → List String × List String
  | usados, [] => ([], usados)
  | usados, v :: vs =>
    if v ∈ usados then filtrarNaoUsados usados vs
    else
      let r := filtrarNaoUsados (v :: usados) vs
      (v :: r.1, r.2)

/-- The fixed priority order of the four contested fields. -/
def CAMPOS_CONFLITO : List String := ["cpf", "rg", "telefone", "endereco"]

def resolver_conflitos (pii : PIIDict) : PIIDict :=
  (CAMPOS_CONFLITO.foldl
    (fun acc campo =>
      let r := filtrarNaoUsados acc.1 (dget acc.2 campo)
      (r.2, dset acc.2 campo r.1))
    (([] : List String), pii)).2

def detect_pii (ner : String → List (String × String)) (text : String) :
    PIIDict :=
  let t := normalize text
  dset (resolver_conflitos (extract_all t)) "nome" (extract_names ner t)

def PII_FORTE : List String := ["cpf", "rg", "endereco", "email", "telefone", "nome"]

/-- `any(pii[k] for k in PII_FORTE)` raises a `KeyError` when a key is
missing, modelled by `none`; with all six keys present the iteration
order of the Python set is irrelevant. -/
def classificar_pedido (pii : PIIDict) : Option String :=
  match pii "cpf", pii "rg", pii "endereco", pii "email", pii "telefone", pii "nome" with
  | some l1, some l2, some l3, some l4, some l5, some l6 =>
    some (if l1.isEmpty && l2.isEmpty && l3.isEmpty && l4.isEmpty &&
            l5.isEmpty && l6.isEmpty then "PÚBLICO" else "NÃO PÚBLICO")
  | _, _, _, _, _, _ => none

-- =========================================================
-- LEMMAS AND CLAIM THEOREMS
-- =========================================================

theorem take_two_eq {α : Type} {l : List α} {a b : α}
    (h : l.take 2 = [a, b]) : ∃ rest, l = a :: b :: rest := by
  match l, h with
  | x :: y :: r, h =>
    simp only [List.take, List.cons.injEq] at h
    exact ⟨r, by simp [h.1, h.2.1]⟩

/-- C7: a phone candidate is accepted iff stripping non-digits leaves
exactly 10 or 11 digits and the first two digits form a number in 11–99;
digits starting with "05" are always rejected, even though the string
"0512345678" does match the extraction pattern. -/
theorem telefone_valido_iff_ddd :
    (∀ tel : String, telefone_valido tel = true ↔
      (((soDigitos tel).length = 10 ∨ (soDigitos tel).length = 11) ∧
        11 ≤ dddValor (soDigitos tel) ∧ dddValor (soDigitos tel) ≤ 99)) ∧
    (∀ tel : String, (soDigitos tel).take 2 = ['0', '5'] →
      telefone_valido tel = false) ∧
    telFindallS "0512345678" = ["0512345678"] ∧
    telefone_valido "0512345678" = false := by
  have hiff : ∀ tel : String, telefone_valido tel = true ↔
      (((soDigitos tel).length = 10 ∨ (soDigitos tel).length = 11) ∧
        11 ≤ dddValor (soDigitos tel) ∧ dddValor (soDigitos tel) ≤ 99) := by
    intro tel
    unfold telefone_valido
    by_cases h : ((soDigitos tel).length == 10 || (soDigitos tel).length == 11) = true
    · simp only [h, if_true]
      simp only [Bool.or_eq_true, beq_iff_eq] at h
      simp [h, Bool.and_eq_true, decide_eq_true_eq]
    · simp only [h]
      simp only [Bool.or_eq_true, beq_iff_eq] at h
      push_neg at h
      simp [h.1, h.2]
  refine ⟨hiff, ?_, by decide, by decide⟩
  intro tel htake
  obtain ⟨rest, hrest⟩ := take_two_eq htake
  by_contra hado
  rw [Bool.not_eq_false] at hado
  have := ((hiff tel).mp hado).2.1
  rw [hrest] at this
  simp [dddValor] at this

/-- C7 witness. -/
theorem telefone_valido_iff_ddd_witness :
    telefone_valido "05187654321" = false :=
  telefone_valido_iff_ddd.2.1 "05187654321" (by decide)

/-- C5: `QUADRA_LOTE` has a capturing group around the keyword, so
`findall` pools only the keyword `"Quadra"` (never the full fragment
`"Quadra 15"`); the keyword contains no digit, fails `endereco_valido`,
and the address list — and even the verdict — miss the address, although
the full fragment itself would have passed the validator. -/
theorem quadra_lote_group_loss :
    qlFindallS "Quadra 15" = ["Quadra"] ∧
    logFindallS "Quadra 15" = [] ∧
    endereco_valido "Quadra" = false ∧
    extract_endereco "Quadra 15" = [] ∧
    endereco_valido "Quadra 15" = true ∧
    dget (detect_pii (fun _ => []) "Quadra 15") "endereco" = [] ∧
    classificar_pedido (detect_pii (fun _ => []) "Quadra 15") = some "PÚBLICO" := by
  refine ⟨by decide, by decide, by decide, by decide, by decide, ?_, ?_⟩ <;> decide

-- Tokens produced by `splitWsAux` are nonempty and whitespace-free.
theorem splitWsAux_tokens (l : List Char) :
    ∀ acc, (∀ ch ∈ acc, isPyWs ch = false) →
    ∀ t ∈ splitWsAux acc l, t ≠ [] ∧ ∀ ch ∈ t, isPyWs ch = false := by
  induction l with
  | nil =>
    intro acc hacc t ht
    by_cases h : acc.isEmpty = true
    · simp [splitWsAux, h] at ht
    · simp [splitWsAux, h] at ht
      subst ht
      constructor
      · intro he
        rw [List.reverse_eq_nil_iff] at he
        subst he
        simp at h
      · intro ch hch
        exact hacc ch (List.mem_reverse.mp hch)
  | cons c cs ih =>
    intro acc hacc t ht
    by_cases hws : isPyWs c = true
    · by_cases hemp : acc.isEmpty = true
      · simp [splitWsAux, hws, hemp] at ht
        exact ih [] (by simp) t ht
      · simp [splitWsAux, hws, hemp] at ht
        rcases ht with h1 | h2
        · subst h1
          constructor
          · intro he
            rw [List.reverse_eq_nil_iff] at he
            subst he
            simp at hemp
          · intro ch hch
            exact hacc ch (List.mem_reverse.mp hch)
        · exact ih [] (by simp) t h2
    · rw [Bool.not_eq_true] at hws
      simp only [splitWsAux, hws] at ht
      refine ih (c :: acc) ?_ t ht
      intro ch hch
      rcases List.mem_cons.mp hch with h | h
      · subst h; exact hws
      · exact hacc ch h

theorem splitWs_tokens (l : List Char) :
    ∀ t ∈ splitWs l, t ≠ [] ∧ ∀ ch ∈ t, isPyWs ch = false :=
  splitWsAux_tokens l [] (by simp)

theorem splitWsAux_through (t : List Char) (ht : ∀ ch ∈ t, isPyWs ch = false) :
    ∀ acc r, splitWsAux acc (t ++ r) = splitWsAux (t.reverse ++ acc) r := by
  induction t with
  | nil => intro acc r; simp
  | cons c cs ih =>
    intro acc r
    have hc : isPyWs c = false := ht c (by simp)
    have hcs : ∀ ch ∈ cs, isPyWs ch = false := fun ch hch => ht ch (by simp [hch])
    show splitWsAux acc (c :: (cs ++ r)) = splitWsAux ((c :: cs).reverse ++ acc) r
    simp only [splitWsAux, hc]
    rw [ih hcs (c :: acc) r]
    simp

/-- `split` is a left inverse of `" ".join` on lists of nonempty,
whitespace-free tokens. -/
theorem splitWs_joinSpace (ts : List (List Char))
    (h : ∀ t ∈ ts, t ≠ [] ∧ ∀ ch ∈ t, isPyWs ch = false) :
    splitWs (joinSpace ts) = ts := by
  induction ts with
  | nil => rfl
  | cons t rest ih =>
    have ht := h t (by simp)
    cases rest with
    | nil =>
      show splitWs t = [t]
      unfold splitWs
      rw [show t = t ++ [] by simp, splitWsAux_through t ht.2]
      simp [splitWsAux, ht.1]
    | cons t2 rest2 =>
      show splitWs (t ++ ' ' :: joinSpace (t2 :: rest2)) = t :: t2 :: rest2
      unfold splitWs
      rw [splitWsAux_through t ht.2]
      have hrec := ih (fun u hu => h u (by simp [hu]))
      unfold splitWs at hrec
      simp [splitWsAux, isPyWs, ht.1, hrec]

/-- C9 counterexample: the claim implies `limpar_titulos` is the identity
on `"João Dr. Silva"` (no leading or trailing title token), but the code
also removes the interior `"Dr."`. -/
theorem limpar_titulos_interior_removed :
    limpar_titulos "João Dr. Silva" ≠ "João Dr. Silva" := by decide

/-- C9 (amended): `limpar_titulos` removes title tokens (case-insensitive
exact token match) at EVERY position of the token sequence — interior ones
included — keeping the other tokens in order. -/
theorem limpar_titulos_filters_every_position (nome : String) :
    splitWsS (limpar_titulos nome) =
      (splitWsS nome).filter (fun t => !(lowerPyS t ∈ TITULOS : Bool)) := by
  unfold limpar_titulos splitWsS joinSpaceS
  rw [show (String.mk (joinSpace (((((splitWs nome.data).map String.mk).filter
        (fun t => !(lowerPyS t ∈ TITULOS : Bool))).map String.data)))).data =
      joinSpace (((((splitWs nome.data).map String.mk).filter
        (fun t => !(lowerPyS t ∈ TITULOS : Bool))).map String.data)) from rfl]
  rw [splitWs_joinSpace]
  · rw [List.map_map]
    have hid : (String.mk ∘ String.data) = id := funext fun s => rfl
    rw [hid, List.map_id]
  · intro u hu
    simp only [List.mem_map] at hu
    obtain ⟨t, htf, hdata⟩ := hu
    have htmem := List.mem_of_mem_filter htf
    simp only [List.mem_map] at htmem
    obtain ⟨v, hv, hmk⟩ := htmem
    have hvt := splitWs_tokens nome.data v hv
    rw [← hdata, ← hmk]
    exact hvt

/-- C8: in `nome_valido`, a token whose lower-case form is a connector
preposition is exempt from the forbidden-word and capitalization checks;
any non-connector token that is a forbidden common noun or does not start
with an upper-case letter makes the whole name invalid, and when no token
violates the rules (and the structural checks pass) the name is valid. -/
theorem nome_valido_token_rules (nome : String) :
    (∀ tok ∈ splitWsS nome,
      lowerPyS tok ∉ PREPOSICOES_NOME →
      (lowerPyS tok ∈ PALAVRAS_PROIBIDAS ∨ isUpperPy (headCharD tok) = false) →
      nome_valido nome = false) ∧
    (2 ≤ (splitWsS nome).length → (splitWsS nome).length ≤ 7 →
      lowerPyS ((splitWsS nome).headD "") ∉
        (["nossa", "nosso", "suas", "seus"] : List String) →
      (splitWsS nome).headD "" ≠ (splitWsS nome).getLastD "" →
      (∀ tok ∈ splitWsS nome,
        lowerPyS tok ∈ PREPOSICOES_NOME ∨
        (lowerPyS tok ∉ PALAVRAS_PROIBIDAS ∧ isUpperPy (headCharD tok) = true)) →
      nome_valido nome = true) := by
  constructor
  · intro tok htok hpre hbad
    unfold nome_valido
    dsimp only
    split
    case isTrue h1 => rfl
    case isFalse h1 =>
      split
      case isTrue h2 => rfl
      case isFalse h2 =>
        split
        case isTrue h3 => rfl
        case isFalse h3 =>
          rw [Bool.eq_false_iff]
          intro hall
          have htrue := List.all_eq_true.mp hall tok htok
          by_cases hpro : lowerPyS tok ∈ PALAVRAS_PROIBIDAS
          · simp [hpre, hpro] at htrue
          · rcases hbad with hb | hb
            · exact hpro hb
            · simp [hpre, hpro, hb] at htrue
  · intro hlen2 hlen7 hpron hfl hall
    unfold nome_valido
    dsimp only
    split
    case isTrue h1 =>
      exfalso
      simp only [Bool.or_eq_true, decide_eq_true_eq] at h1
      omega
    case isFalse h1 =>
      -- the pronoun test is resolved directly from `hpron` by `split`
      split
      case isTrue h2 =>
        rw [beq_iff_eq] at h2
        exact absurd h2 hfl
      case isFalse h2 =>
        rw [List.all_eq_true]
        intro tok htok
        rcases hall tok htok with hb | hb
        · simp [hb]
        · by_cases hp : lowerPyS tok ∈ PREPOSICOES_NOME
          · simp [hp]
          · simp [hp, hb.1, hb.2]

/-- C8 witness: a forbidden common noun rejects the name, a lower-case
non-connector token rejects the name, and connector prepositions inside
an otherwise valid name do not. -/
theorem nome_valido_token_rules_witness :
    nome_valido "Maria Associação" = false ∧
    nome_valido "Maria silva" = false ∧
    nome_valido "João da Silva" = true := by
  refine ⟨?_, ?_, ?_⟩
  · exact (nome_valido_token_rules "Maria Associação").1 "Associação"
      (by decide) (by decide) (Or.inl (by decide))
  · exact (nome_valido_token_rules "Maria silva").1 "silva"
      (by decide) (by decide) (Or.inr (by decide))
  · exact (nome_valido_token_rules "João da Silva").2
      (by decide) (by decide) (by decide) (by decide) (by decide)

-- Every window inspected by `rg_valido` has at most 15 characters
-- (it is `text[max(0, start-15):start]`).
theorem rgFindWindows_len (pat : List Char) :
    ∀ fuel seenRev l, ∀ w ∈ rgFindWindows pat fuel seenRev l, w.length ≤ 15 := by
  intro fuel
  induction fuel with
  | zero => intro seenRev l w hw; simp [rgFindWindows] at hw
  | succ f ih =>
    intro seenRev l w hw
    cases l with
    | nil => simp [rgFindWindows] at hw
    | cons ch rest =>
      unfold rgFindWindows at hw
      cases hm : patMatchAt pat (ch :: rest) with
      | some pr =>
        rw [hm] at hw
        rcases List.mem_cons.mp hw with h1 | h2
        · subst h1
          simp [List.length_take]
        · exact ih _ _ w h2
      | none =>
        rw [hm] at hw
        exact ih _ _ w hw

/-- C6: `rg_valido` accepts only candidates whose digit count is 7–9 AND
for which some occurrence of the candidate in the text has the lower-cased
15-character window immediately before it containing one of the keywords
"rg", "registro geral", "identidade"; with a valid digit count but no
keyword in any window the candidate is rejected. -/
theorem rg_valido_contextual :
    (∀ rg text : String, rg_valido rg text = true →
      (7 ≤ (soDigitos rg).length ∧ (soDigitos rg).length ≤ 9) ∧
      ∃ w ∈ rgJanelas rg text, w.length ≤ 15 ∧ janelaTemContexto w = true) ∧
    (∀ rg text : String, 7 ≤ (soDigitos rg).length → (soDigitos rg).length ≤ 9 →
      (∀ w ∈ rgJanelas rg text, janelaTemContexto w = false) →
      rg_valido rg text = false) ∧
    (∀ w : List Char, janelaTemContexto w = true ↔
      (containsL "rg".data (lowerL w) = true ∨
       containsL "registro geral".data (lowerL w) = true ∨
       containsL "identidade".data (lowerL w) = true)) := by
  refine ⟨?_, ?_, ?_⟩
  · intro rg text hv
    unfold rg_valido at hv
    by_cases hd : (decide (7 ≤ (soDigitos rg).length) &&
        decide ((soDigitos rg).length ≤ 9)) = true
    · simp only [hd, if_true] at hv
      obtain ⟨w, hw, hctx⟩ := List.any_eq_true.mp hv
      simp only [Bool.and_eq_true, decide_eq_true_eq] at hd
      exact ⟨hd, w, hw, rgFindWindows_len rg.data _ _ _ w hw, hctx⟩
    · simp only [hd] at hv
      simp at hv
  · intro rg text h7 h9 hwin
    unfold rg_valido
    have hd : (decide (7 ≤ (soDigitos rg).length) &&
        decide ((soDigitos rg).length ≤ 9)) = true := by simp [h7, h9]
    simp only [hd, if_true]
    rw [Bool.eq_false_iff]
    intro hany
    obtain ⟨w, hw, hctx⟩ := List.any_eq_true.mp hany
    rw [hwin w hw] at hctx
    exact absurd hctx (by simp)
  · intro w
    simp [janelaTemContexto]

/-- C6 witness: `"13.456.789-0"` has 9 digits (a valid count) but no
identity-document keyword within the 15 characters before its occurrence,
so it is rejected. -/
theorem rg_valido_contextual_witness :
    rg_valido "13.456.789-0" "documento 13.456.789-0" = false ∧
    7 ≤ (soDigitos "13.456.789-0").length ∧
    (soDigitos "13.456.789-0").length ≤ 9 :=
  ⟨rg_valido_contextual.2.1 "13.456.789-0" "documento 13.456.789-0"
      (by decide) (by decide) (by decide),
   by decide, by decide⟩

-- =========================================================
-- Dictionary and conflict-resolution lemmas
-- =========================================================

theorem dset_same (d : PIIDict) (k : String) (v : List String) :
    dset d k v k = some v := by simp [dset]

theorem dset_ne (d : PIIDict) {k q : String} (h : q ≠ k) (v : List String) :
    dset d k v q = d q := by simp [dset, h]

/-- The four usados/filtrados passes of `resolver_conflitos`, in priority
order (each reading the original mapping: the loop only writes fields it
has already read). -/
def passCpf (pii : PIIDict) : List String × List String :=
  filtrarNaoUsados [] (dget pii "cpf")

def passRg (pii : PIIDict) : List String × List String :=
  filtrarNaoUsados (passCpf pii).2 (dget pii "rg")

def passTel (pii : PIIDict) : List String × List String :=
  filtrarNaoUsados (passRg pii).2 (dget pii "telefone")

def passEnd (pii : PIIDict) : List String × List String :=
  filtrarNaoUsados (passTel pii).2 (dget pii "endereco")

theorem resolver_eq (pii : PIIDict) :
    resolver_conflitos pii =
      dset (dset (dset (dset pii "cpf" (passCpf pii).1) "rg" (passRg pii).1)
        "telefone" (passTel pii).1) "endereco" (passEnd pii).1 := by
  show (CAMPOS_CONFLITO.foldl
      (fun acc campo =>
        let r := filtrarNaoUsados acc.1 (dget acc.2 campo)
        (r.2, dset acc.2 campo r.1))
      (([] : List String), pii)).2 = _
  simp only [CAMPOS_CONFLITO, List.foldl]
  have hrg : dget (dset pii "cpf" (passCpf pii).1) "rg" = dget pii "rg" := by
    unfold dget
    rw [dset_ne _ (by decide)]
  have htel : dget (dset (dset pii "cpf" (passCpf pii).1) "rg" (passRg pii).1)
      "telefone" = dget pii "telefone" := by
    unfold dget
    rw [dset_ne _ (by decide), dset_ne _ (by decide)]
  have hend : dget (dset (dset (dset pii "cpf" (passCpf pii).1) "rg"
      (passRg pii).1) "telefone" (passTel pii).1) "endereco" =
      dget pii "endereco" := by
    unfold dget
    rw [dset_ne _ (by decide), dset_ne _ (by decide), dset_ne _ (by decide)]
  simp only [passCpf, passRg, passTel, passEnd] at hrg htel hend ⊢
  rw [hrg, htel, hend]

theorem resolver_cpf (pii : PIIDict) :
    resolver_conflitos pii "cpf" = some (passCpf pii).1 := by
  rw [resolver_eq, dset_ne _ (by decide), dset_ne _ (by decide),
    dset_ne _ (by decide), dset_same]

theorem resolver_rg (pii : PIIDict) :
    resolver_conflitos pii "rg" = some (passRg pii).1 := by
  rw [resolver_eq, dset_ne _ (by decide), dset_ne _ (by decide), dset_same]

theorem resolver_tel (pii : PIIDict) :
    resolver_conflitos pii "telefone" = some (passTel pii).1 := by
  rw [resolver_eq, dset_ne _ (by decide), dset_same]

theorem resolver_end (pii : PIIDict) :
    resolver_conflitos pii "endereco" = some (passEnd pii).1 := by
  rw [resolver_eq, dset_same]

theorem resolver_other (pii : PIIDict) {k : String} (h1 : k ≠ "cpf")
    (h2 : k ≠ "rg") (h3 : k ≠ "telefone") (h4 : k ≠ "endereco") :
    resolver_conflitos pii k = pii k := by
  rw [resolver_eq, dset_ne _ h4, dset_ne _ h3, dset_ne _ h2, dset_ne _ h1]

theorem extract_all_other (t : String) {k : String} (h1 : k ≠ "cpf")
    (h2 : k ≠ "rg") (h3 : k ≠ "email") (h4 : k ≠ "telefone")
    (h5 : k ≠ "endereco") : extract_all t k = none := by
  simp [extract_all, h1, h2, h3, h4, h5]

theorem detect_pii_nome (ner : String → List (String × String)) (text : String) :
    detect_pii ner text "nome" = some (extract_names ner (normalize text)) := by
  unfold detect_pii
  rw [dset_same]

theorem detect_pii_cpf (ner : String → List (String × String)) (text : String) :
    detect_pii ner text "cpf" =
      some (passCpf (extract_all (normalize text))).1 := by
  unfold detect_pii
  rw [dset_ne _ (by decide), resolver_cpf]

theorem detect_pii_rg (ner : String → List (String × String)) (text : String) :
    detect_pii ner text "rg" =
      some (passRg (extract_all (normalize text))).1 := by
  unfold detect_pii
  rw [dset_ne _ (by decide), resolver_rg]

theorem detect_pii_tel (ner : String → List (String × String)) (text : String) :
    detect_pii ner text "telefone" =
      some (passTel (extract_all (normalize text))).1 := by
  unfold detect_pii
  rw [dset_ne _ (by decide), resolver_tel]

theorem detect_pii_end (ner : String → List (String × String)) (text : String) :
    detect_pii ner text "endereco" =
      some (passEnd (extract_all (normalize text))).1 := by
  unfold detect_pii
  rw [dset_ne _ (by decide), resolver_end]

theorem detect_pii_email (ner : String → List (String × String)) (text : String) :
    detect_pii ner text "email" =
      some (extractDedup (emailFindallS (normalize text))) := by
  unfold detect_pii
  rw [dset_ne _ (by decide),
    resolver_other _ (by decide) (by decide) (by decide) (by decide)]
  rfl

theorem detect_pii_other (ner : String → List (String × String)) (text : String)
    {k : String} (h1 : k ≠ "cpf") (h2 : k ≠ "rg") (h3 : k ≠ "email")
    (h4 : k ≠ "telefone") (h5 : k ≠ "endereco") (h6 : k ≠ "nome") :
    detect_pii ner text k = none := by
  unfold detect_pii
  rw [dset_ne _ h6, resolver_other _ h1 h2 h4 h5, extract_all_other _ h1 h2 h3 h4 h5]

/-- C10: the mapping produced by `detect_pii` is defined on exactly the six
PII keys (each bound to some list), so the classifier's lookup of every
strong type always succeeds. -/
theorem detect_pii_exactly_six_keys (ner : String → List (String × String))
    (text : String) :
    (∀ k ∈ PII_FORTE, ∃ l, detect_pii ner text k = some l) ∧
    (∀ k, k ∉ PII_FORTE → detect_pii ner text k = none) ∧
    (∃ v, classificar_pedido (detect_pii ner text) = some v) := by
  refine ⟨?_, ?_, ?_⟩
  · intro k hk
    simp only [PII_FORTE, List.mem_cons, List.not_mem_nil, or_false] at hk
    rcases hk with h | h | h | h | h | h <;> subst h
    · exact ⟨_, detect_pii_cpf ner text⟩
    · exact ⟨_, detect_pii_rg ner text⟩
    · exact ⟨_, detect_pii_end ner text⟩
    · exact ⟨_, detect_pii_email ner text⟩
    · exact ⟨_, detect_pii_tel ner text⟩
    · exact ⟨_, detect_pii_nome ner text⟩
  · intro k hk
    simp only [PII_FORTE, List.mem_cons, List.not_mem_nil, or_false, not_or] at hk
    exact detect_pii_other ner text hk.1 hk.2.1 hk.2.2.2.1 hk.2.2.2.2.1 hk.2.2.1
      hk.2.2.2.2.2
  · unfold classificar_pedido
    rw [detect_pii_cpf, detect_pii_rg, detect_pii_end, detect_pii_email,
      detect_pii_tel, detect_pii_nome]
    exact ⟨_, rfl⟩

/-- C10 witness. -/
theorem detect_pii_exactly_six_keys_witness :
    (∃ l, detect_pii (fun _ => []) "abc" "cpf" = some l) ∧
    detect_pii (fun _ => []) "abc" "cep" = none ∧
    (∃ v, classificar_pedido (detect_pii (fun _ => []) "abc") = some v) :=
  ⟨(detect_pii_exactly_six_keys (fun _ => []) "abc").1 "cpf" (by decide),
   (detect_pii_exactly_six_keys (fun _ => []) "abc").2.1 "cep" (by decide),
   (detect_pii_exactly_six_keys (fun _ => []) "abc").2.2⟩

-- The classifier on a mapping with all six keys present.
theorem classificar_spec (pii : PIIDict)
    (lcpf lrg lend lemail ltel lnome : List String)
    (h1 : pii "cpf" = some lcpf) (h2 : pii "rg" = some lrg)
    (h3 : pii "endereco" = some lend) (h4 : pii "email" = some lemail)
    (h5 : pii "telefone" = some ltel) (h6 : pii "nome" = some lnome) :
    (classificar_pedido pii = some "NÃO PÚBLICO" ↔
      (lcpf ≠ [] ∨ lrg ≠ [] ∨ lemail ≠ [] ∨ ltel ≠ [] ∨ lend ≠ [] ∨ lnome ≠ [])) ∧
    (classificar_pedido pii = some "PÚBLICO" ↔
      (lcpf = [] ∧ lrg = [] ∧ lemail = [] ∧ ltel = [] ∧ lend = [] ∧ lnome = [])) := by
  unfold classificar_pedido
  rw [h1, h2, h3, h4, h5, h6]
  dsimp only
  by_cases hA : (lcpf.isEmpty && lrg.isEmpty && lend.isEmpty && lemail.isEmpty &&
      ltel.isEmpty && lnome.isEmpty) = true
  · rw [if_pos hA]
    simp only [Bool.and_eq_true, List.isEmpty_eq_true] at hA
    obtain ⟨⟨⟨⟨⟨e1, e2⟩, e3⟩, e4⟩, e5⟩, e6⟩ := hA
    subst e1; subst e2; subst e3; subst e4; subst e5; subst e6
    simp
  · rw [if_neg hA]
    simp only [Bool.and_eq_true, List.isEmpty_eq_true] at hA
    refine ⟨⟨fun _ => ?_, fun _ => rfl⟩, ⟨fun hcontra => ?_, fun hand => ?_⟩⟩
    · by_contra hno
      push_neg at hno
      exact hA (by tauto)
    · exact absurd (Option.some.inj hcontra) (by decide)
    · exact absurd (by tauto : ((((lcpf.isEmpty = true ∧ lrg.isEmpty = true) ∧
        lend.isEmpty = true) ∧ lemail.isEmpty = true) ∧ ltel.isEmpty = true) ∧
        lnome.isEmpty = true) (by simpa only [List.isEmpty_eq_true] using hA)

/-- C1: for every mapping produced by the pipeline, the classifier returns
"NÃO PÚBLICO" iff at least one of the six type lists is non-empty, and
"PÚBLICO" iff all six lists are empty. -/
theorem classificar_iff_nonempty (ner : String → List (String × String))
    (text : String) :
    (classificar_pedido (detect_pii ner text) = some "NÃO PÚBLICO" ↔
      (dget (detect_pii ner text) "cpf" ≠ [] ∨
       dget (detect_pii ner text) "rg" ≠ [] ∨
       dget (detect_pii ner text) "email" ≠ [] ∨
       dget (detect_pii ner text) "telefone" ≠ [] ∨
       dget (detect_pii ner text) "endereco" ≠ [] ∨
       dget (detect_pii ner text) "nome" ≠ [])) ∧
    (classificar_pedido (detect_pii ner text) = some "PÚBLICO" ↔
      (dget (detect_pii ner text) "cpf" = [] ∧
       dget (detect_pii ner text) "rg" = [] ∧
       dget (detect_pii ner text) "email" = [] ∧
       dget (detect_pii ner text) "telefone" = [] ∧
       dget (detect_pii ner text) "endereco" = [] ∧
       dget (detect_pii ner text) "nome" = [])) := by
  have dc : dget (detect_pii ner text) "cpf" =
      (passCpf (extract_all (normalize text))).1 := by
    unfold dget; rw [detect_pii_cpf]; rfl
  have dr : dget (detect_pii ner text) "rg" =
      (passRg (extract_all (normalize text))).1 := by
    unfold dget; rw [detect_pii_rg]; rfl
  have dt : dget (detect_pii ner text) "telefone" =
      (passTel (extract_all (normalize text))).1 := by
    unfold dget; rw [detect_pii_tel]; rfl
  have dd : dget (detect_pii ner text) "endereco" =
      (passEnd (extract_all (normalize text))).1 := by
    unfold dget; rw [detect_pii_end]; rfl
  have de : dget (detect_pii ner text) "email" =
      extractDedup (emailFindallS (normalize text)) := by
    unfold dget; rw [detect_pii_email]; rfl
  have dn : dget (detect_pii ner text) "nome" =
      extract_names ner (normalize text) := by
    unfold dget; rw [detect_pii_nome]; rfl
  rw [dc, dr, dt, dd, de, dn]
  exact classificar_spec (detect_pii ner text) _ _ _ _ _ _
    (detect_pii_cpf ner text) (detect_pii_rg ner text) (detect_pii_end ner text)
    (detect_pii_email ner text) (detect_pii_tel ner text) (detect_pii_nome ner text)

theorem filtrar_mem_usados (l : List String) :
    ∀ u v, v ∈ (filtrarNaoUsados u l).2 ↔ v ∈ u ∨ v ∈ l := by
  induction l with
  | nil => intro u v; simp [filtrarNaoUsados]
  | cons x xs ih =>
    intro u v
    by_cases hx : x ∈ u
    · rw [show filtrarNaoUsados u (x :: xs) = filtrarNaoUsados u xs from by
        simp [filtrarNaoUsados, hx]]
      rw [ih u v]
      constructor
      · rintro (h | h)
        · exact Or.inl h
        · exact Or.inr (List.mem_cons_of_mem _ h)
      · rintro (h | h)
        · exact Or.inl h
        · rcases List.mem_cons.mp h with he | hm
          · subst he; exact Or.inl hx
          · exact Or.inr hm
    · rw [show (filtrarNaoUsados u (x :: xs)).2 =
          (filtrarNaoUsados (x :: u) xs).2 from by
        simp [filtrarNaoUsados, hx]]
      rw [ih (x :: u) v]
      simp only [List.mem_cons]
      tauto

theorem filtrar_mem_kept (l : List String) :
    ∀ u v, v ∈ (filtrarNaoUsados u l).1 ↔ v ∈ l ∧ v ∉ u := by
  induction l with
  | nil => intro u v; simp [filtrarNaoUsados]
  | cons x xs ih =>
    intro u v
    by_cases hx : x ∈ u
    · rw [show filtrarNaoUsados u (x :: xs) = filtrarNaoUsados u xs from by
        simp [filtrarNaoUsados, hx]]
      rw [ih u v]
      simp only [List.mem_cons]
      constructor
      · rintro ⟨h1, h2⟩; exact ⟨Or.inr h1, h2⟩
      · rintro ⟨h1 | h1, h2⟩
        · subst h1; exact absurd hx h2
        · exact ⟨h1, h2⟩
    · rw [show (filtrarNaoUsados u (x :: xs)).1 =
          x :: (filtrarNaoUsados (x :: u) xs).1 from by
        simp [filtrarNaoUsados, hx]]
      simp only [List.mem_cons, ih (x :: u) v]
      constructor
      · rintro (he | ⟨h1, h2⟩)
        · subst he; exact ⟨Or.inl rfl, hx⟩
        · exact ⟨Or.inr h1, fun hu => h2 (Or.inr hu)⟩
      · rintro ⟨he | h1, h2⟩
        · exact Or.inl he
        · by_cases hvx : v = x
          · exact Or.inl hvx
          · exact Or.inr ⟨h1, fun hm => hm.elim hvx h2⟩

theorem filtrar_kept_nodup (l : List String) :
    ∀ u, (filtrarNaoUsados u l).1.Nodup := by
  induction l with
  | nil => intro u; simp [filtrarNaoUsados]
  | cons x xs ih =>
    intro u
    by_cases hx : x ∈ u
    · rw [show filtrarNaoUsados u (x :: xs) = filtrarNaoUsados u xs from by
        simp [filtrarNaoUsados, hx]]
      exact ih u
    · rw [show (filtrarNaoUsados u (x :: xs)).1 =
          x :: (filtrarNaoUsados (x :: u) xs).1 from by
        simp [filtrarNaoUsados, hx]]
      refine List.nodup_cons.mpr ⟨?_, ih (x :: u)⟩
      intro hmem
      exact ((filtrar_mem_kept xs (x :: u) x).mp hmem).2 (List.mem_cons_self x u)

theorem filtrar_kept_id (l : List String) :
    ∀ u, l.Nodup → (∀ v ∈ l, v ∉ u) → (filtrarNaoUsados u l).1 = l := by
  induction l with
  | nil => intro u _ _; rfl
  | cons x xs ih =>
    intro u hnd hdisj
    have hx : x ∉ u := hdisj x (List.mem_cons_self x xs)
    rw [show (filtrarNaoUsados u (x :: xs)).1 =
        x :: (filtrarNaoUsados (x :: u) xs).1 from by
      simp [filtrarNaoUsados, hx]]
    congr 1
    refine ih (x :: u) (List.nodup_cons.mp hnd).2 ?_
    intro v hv hmem
    rcases List.mem_cons.mp hmem with he | hu
    · subst he; exact (List.nodup_cons.mp hnd).1 hv
    · exact hdisj v (List.mem_cons_of_mem _ hv) hu

-- Membership in the four resolver passes, characterized against the
-- original mapping.
theorem pass_cpf_kept (pii : PIIDict) (v : String) :
    v ∈ (passCpf pii).1 ↔ v ∈ dget pii "cpf" := by
  unfold passCpf
  rw [filtrar_mem_kept]
  simp

theorem pass_cpf_usados (pii : PIIDict) (v : String) :
    v ∈ (passCpf pii).2 ↔ v ∈ dget pii "cpf" := by
  unfold passCpf
  rw [filtrar_mem_usados]
  simp

theorem pass_rg_kept (pii : PIIDict) (v : String) :
    v ∈ (passRg pii).1 ↔ v ∈ dget pii "rg" ∧ v ∉ dget pii "cpf" := by
  unfold passRg
  rw [filtrar_mem_kept, pass_cpf_usados]

theorem pass_rg_usados (pii : PIIDict) (v : String) :
    v ∈ (passRg pii).2 ↔ v ∈ dget pii "cpf" ∨ v ∈ dget pii "rg" := by
  unfold passRg
  rw [filtrar_mem_usados, pass_cpf_usados]

theorem pass_tel_kept (pii : PIIDict) (v : String) :
    v ∈ (passTel pii).1 ↔
      v ∈ dget pii "telefone" ∧ v ∉ dget pii "cpf" ∧ v ∉ dget pii "rg" := by
  unfold passTel
  rw [filtrar_mem_kept, pass_rg_usados]
  tauto

theorem pass_tel_usados (pii : PIIDict) (v : String) :
    v ∈ (passTel pii).2 ↔
      v ∈ dget pii "cpf" ∨ v ∈ dget pii "rg" ∨ v ∈ dget pii "telefone" := by
  unfold passTel
  rw [filtrar_mem_usados, pass_rg_usados]
  tauto

theorem pass_end_kept (pii : PIIDict) (v : String) :
    v ∈ (passEnd pii).1 ↔
      v ∈ dget pii "endereco" ∧ v ∉ dget pii "cpf" ∧ v ∉ dget pii "rg" ∧
        v ∉ dget pii "telefone" := by
  unfold passEnd
  rw [filtrar_mem_kept, pass_tel_usados]
  tauto

-- `dget` of the resolved mapping, for the four contested fields.
theorem dget_resolver_cpf (pii : PIIDict) :
    dget (resolver_conflitos pii) "cpf" = (passCpf pii).1 := by
  unfold dget; rw [resolver_cpf]; rfl

theorem dget_resolver_rg (pii : PIIDict) :
    dget (resolver_conflitos pii) "rg" = (passRg pii).1 := by
  unfold dget; rw [resolver_rg]; rfl

theorem dget_resolver_tel (pii : PIIDict) :
    dget (resolver_conflitos pii) "telefone" = (passTel pii).1 := by
  unfold dget; rw [resolver_tel]; rfl

theorem dget_resolver_end (pii : PIIDict) :
    dget (resolver_conflitos pii) "endereco" = (passEnd pii).1 := by
  unfold dget; rw [resolver_end]; rfl

/-- Position of a contested field in the resolver's priority order. -/
def campoIdx (k : String) : Nat :=
  if k = "cpf" then 0 else if k = "rg" then 1 else if k = "telefone" then 2 else 3

/-- C3: after conflict resolution no literal value appears in more than one
of the four contested lists (cpf, rg, telefone, endereco); a value claimed
by several contested types is kept by the earliest one in the fixed
priority order; the email and person-name entries are excluded from the
resolution and left unchanged. -/
theorem resolver_disjoint_priority (pii : PIIDict) :
    (∀ v : String, ∀ k1 ∈ CAMPOS_CONFLITO, ∀ k2 ∈ CAMPOS_CONFLITO, k1 ≠ k2 →
      v ∈ dget (resolver_conflitos pii) k1 →
      v ∉ dget (resolver_conflitos pii) k2) ∧
    (∀ v : String, ∀ k ∈ CAMPOS_CONFLITO, v ∈ dget pii k →
      (∀ k2 ∈ CAMPOS_CONFLITO, campoIdx k2 < campoIdx k → v ∉ dget pii k2) →
      v ∈ dget (resolver_conflitos pii) k) ∧
    resolver_conflitos pii "email" = pii "email" ∧
    resolver_conflitos pii "nome" = pii "nome" := by
  have A1 : ∀ v : String, v ∈ dget (resolver_conflitos pii) "cpf" ↔
      v ∈ dget pii "cpf" := by
    intro v; rw [dget_resolver_cpf]; exact pass_cpf_kept pii v
  have A2 : ∀ v : String, v ∈ dget (resolver_conflitos pii) "rg" ↔
      v ∈ dget pii "rg" ∧ v ∉ dget pii "cpf" := by
    intro v; rw [dget_resolver_rg]; exact pass_rg_kept pii v
  have A3 : ∀ v : String, v ∈ dget (resolver_conflitos pii) "telefone" ↔
      v ∈ dget pii "telefone" ∧ v ∉ dget pii "cpf" ∧ v ∉ dget pii "rg" := by
    intro v; rw [dget_resolver_tel]; exact pass_tel_kept pii v
  have A4 : ∀ v : String, v ∈ dget (resolver_conflitos pii) "endereco" ↔
      v ∈ dget pii "endereco" ∧ v ∉ dget pii "cpf" ∧ v ∉ dget pii "rg" ∧
        v ∉ dget pii "telefone" := by
    intro v; rw [dget_resolver_end]; exact pass_end_kept pii v
  refine ⟨?_, ?_, ?_, ?_⟩
  · intro v k1 hk1 k2 hk2 hne h1 h2
    simp only [CAMPOS_CONFLITO, List.mem_cons, List.not_mem_nil, or_false] at hk1 hk2
    rcases hk1 with rfl | rfl | rfl | rfl <;> rcases hk2 with rfl | rfl | rfl | rfl
    · exact hne rfl
    · exact ((A2 v).mp h2).2 ((A1 v).mp h1)
    · exact ((A3 v).mp h2).2.1 ((A1 v).mp h1)
    · exact ((A4 v).mp h2).2.1 ((A1 v).mp h1)
    · exact ((A2 v).mp h1).2 ((A1 v).mp h2)
    · exact hne rfl
    · exact ((A3 v).mp h2).2.2 ((A2 v).mp h1).1
    · exact ((A4 v).mp h2).2.2.1 ((A2 v).mp h1).1
    · exact ((A3 v).mp h1).2.1 ((A1 v).mp h2)
    · exact ((A3 v).mp h1).2.2 ((A2 v).mp h2).1
    · exact hne rfl
    · exact ((A4 v).mp h2).2.2.2 ((A3 v).mp h1).1
    · exact ((A4 v).mp h1).2.1 ((A1 v).mp h2)
    · exact ((A4 v).mp h1).2.2.1 ((A2 v).mp h2).1
    · exact ((A4 v).mp h1).2.2.2 ((A3 v).mp h2).1
    · exact hne rfl
  · intro v k hk hv hearly
    simp only [CAMPOS_CONFLITO, List.mem_cons, List.not_mem_nil, or_false] at hk
    rcases hk with rfl | rfl | rfl | rfl
    · exact (A1 v).mpr hv
    · exact (A2 v).mpr ⟨hv, hearly "cpf" (by simp [CAMPOS_CONFLITO]) (by decide)⟩
    · exact (A3 v).mpr ⟨hv, hearly "cpf" (by simp [CAMPOS_CONFLITO]) (by decide),
        hearly "rg" (by simp [CAMPOS_CONFLITO]) (by decide)⟩
    · exact (A4 v).mpr ⟨hv, hearly "cpf" (by simp [CAMPOS_CONFLITO]) (by decide),
        hearly "rg" (by simp [CAMPOS_CONFLITO]) (by decide),
        hearly "telefone" (by simp [CAMPOS_CONFLITO]) (by decide)⟩
  · exact resolver_other pii (by decide) (by decide) (by decide) (by decide)
  · exact resolver_other pii (by decide) (by decide) (by decide) (by decide)

/-- C3 witness: the value "7", claimed by both cpf and telefone, is kept by
cpf (the earliest type) and dropped from telefone. -/
theorem resolver_disjoint_priority_witness :
    "7" ∈ dget (resolver_conflitos (fun k =>
      if k = "cpf" then some ["7"] else
        if k = "telefone" then some ["7"] else none)) "cpf" ∧
    "7" ∉ dget (resolver_conflitos (fun k =>
      if k = "cpf" then some ["7"] else
        if k = "telefone" then some ["7"] else none)) "telefone" := by
  have h := resolver_disjoint_priority (fun k =>
    if k = "cpf" then some ["7"] else
      if k = "telefone" then some ["7"] else none)
  have h1 := h.2.1 "7" "cpf" (by decide) (by decide)
    (fun k2 _ hlt => absurd hlt (Nat.not_lt_zero _))
  exact ⟨h1, h.1 "7" "cpf" (by decide) "telefone" (by decide) (by decide) h1⟩

/-- C4: conflict resolution is idempotent: resolving an already-resolved
mapping changes nothing. -/
theorem resolver_idempotent (pii : PIIDict) :
    resolver_conflitos (resolver_conflitos pii) = resolver_conflitos pii := by
  have hcpf1 : (passCpf (resolver_conflitos pii)).1 = (passCpf pii).1 := by
    show (filtrarNaoUsados [] (dget (resolver_conflitos pii) "cpf")).1 = _
    rw [dget_resolver_cpf pii]
    exact filtrar_kept_id _ [] (filtrar_kept_nodup _ _) (by simp)
  have hrg1 : (passRg (resolver_conflitos pii)).1 = (passRg pii).1 := by
    show (filtrarNaoUsados (passCpf (resolver_conflitos pii)).2
        (dget (resolver_conflitos pii) "rg")).1 = _
    rw [dget_resolver_rg pii]
    refine filtrar_kept_id _ _ (filtrar_kept_nodup _ _) ?_
    intro v hv hmem
    have hk := (pass_rg_kept pii v).mp hv
    have hu := (pass_cpf_usados (resolver_conflitos pii) v).mp hmem
    rw [dget_resolver_cpf pii] at hu
    exact hk.2 ((pass_cpf_kept pii v).mp hu)
  have htel1 : (passTel (resolver_conflitos pii)).1 = (passTel pii).1 := by
    show (filtrarNaoUsados (passRg (resolver_conflitos pii)).2
        (dget (resolver_conflitos pii) "telefone")).1 = _
    rw [dget_resolver_tel pii]
    refine filtrar_kept_id _ _ (filtrar_kept_nodup _ _) ?_
    intro v hv hmem
    have hk := (pass_tel_kept pii v).mp hv
    have hu := (pass_rg_usados (resolver_conflitos pii) v).mp hmem
    rw [dget_resolver_cpf pii, dget_resolver_rg pii] at hu
    rcases hu with hu | hu
    · exact hk.2.1 ((pass_cpf_kept pii v).mp hu)
    · exact hk.2.2 ((pass_rg_kept pii v).mp hu).1
  have hend1 : (passEnd (resolver_conflitos pii)).1 = (passEnd pii).1 := by
    show (filtrarNaoUsados (passTel (resolver_conflitos pii)).2
        (dget (resolver_conflitos pii) "endereco")).1 = _
    rw [dget_resolver_end pii]
    refine filtrar_kept_id _ _ (filtrar_kept_nodup _ _) ?_
    intro v hv hmem
    have hk := (pass_end_kept pii v).mp hv
    have hu := (pass_tel_usados (resolver_conflitos pii) v).mp hmem
    rw [dget_resolver_cpf pii, dget_resolver_rg pii, dget_resolver_tel pii] at hu
    rcases hu with hu | hu | hu
    · exact hk.2.1 ((pass_cpf_kept pii v).mp hu)
    · exact hk.2.2.1 ((pass_rg_kept pii v).mp hu).1
    · exact hk.2.2.2 ((pass_tel_kept pii v).mp hu).1
  funext k
  by_cases h1 : k = "cpf"
  · subst h1
    rw [resolver_cpf (resolver_conflitos pii), hcpf1, resolver_cpf pii]
  · by_cases h2 : k = "rg"
    · subst h2
      rw [resolver_rg (resolver_conflitos pii), hrg1, resolver_rg pii]
    · by_cases h3 : k = "telefone"
      · subst h3
        rw [resolver_tel (resolver_conflitos pii), htel1, resolver_tel pii]
      · by_cases h4 : k = "endereco"
        · subst h4
          rw [resolver_end (resolver_conflitos pii), hend1, resolver_end pii]
        · exact resolver_other _ h1 h2 h3 h4

-- =========================================================
-- C2: a grouped national ID occurring with word boundaries is always
-- found by the CPF scanner. Infrastructure lemmas.
-- =========================================================

/-- A valid-looking national ID in grouped format (`ddd.ddd.ddd-dd`,
11 digits), as the claim describes it. -/
def GroupedCPF (c : List Char) : Prop :=
  ∃ a b c3 d e f g h i j k : Char,
    c = [a, b, c3, '.', d, e, f, '.', g, h, i, '-', j, k] ∧
    (a.isDigit = true ∧ b.isDigit = true ∧ c3.isDigit = true) ∧
    (d.isDigit = true ∧ e.isDigit = true ∧ f.isDigit = true) ∧
    (g.isDigit = true ∧ h.isDigit = true ∧ i.isDigit = true) ∧
    (j.isDigit = true ∧ k.isDigit = true)

/-- The character before the occurrence (if any) is not a word character:
the `\b` before the match holds. -/
def leftBoundaryOk (l : List Char) : Bool := !isWordB l.reverse

theorem isWordChar_of_isDigit {ch : Char} (h : ch.isDigit = true) :
    isWordChar ch = true := by
  simp [isWordChar, Char.isAlphanum, h]

theorem isDigit_eq_false_of_not_word {ch : Char} (h : isWordChar ch = false) :
    ch.isDigit = false := by
  by_contra hc
  rw [Bool.not_eq_false] at hc
  rw [isWordChar_of_isDigit hc] at h
  exact absurd h (by simp)

theorem isDigit_toNat_bounds {ch : Char} (h : ch.isDigit = true) :
    48 ≤ ch.toNat ∧ ch.toNat ≤ 57 := by
  simp only [Char.isDigit, decide_eq_true_eq, Bool.and_eq_true] at h
  exact ⟨h.1, h.2⟩

theorem isPyWs_eq_false_of_isDigit {ch : Char} (h : ch.isDigit = true) :
    isPyWs ch = false := by
  obtain ⟨h1, h2⟩ := isDigit_toNat_bounds h
  rw [Bool.eq_false_iff]
  intro hws
  simp only [isPyWs, Bool.or_eq_true, beq_iff_eq] at hws
  rcases hws with (((((((h3 | h3) | h3) | h3) | h3) | h3) | h3) | h3)
  · rw [h3] at h1; exact absurd h1 (by decide)
  · rw [h3] at h1; exact absurd h1 (by decide)
  · rw [h3] at h1; exact absurd h1 (by decide)
  · rw [h3] at h1; exact absurd h1 (by decide)
  · omega
  · omega
  · omega
  · omega

-- Matcher specification lemmas.

theorem digits3_spec {cs g r : List Char} (h : digits3 cs = some (g, r)) :
    cs = g ++ r ∧ ∃ x y z : Char, g = [x, y, z] ∧
      x.isDigit = true ∧ y.isDigit = true ∧ z.isDigit = true := by
  rcases cs with _ | ⟨x, _ | ⟨y, _ | ⟨z, rest⟩⟩⟩
  · simp [digits3] at h
  · simp [digits3] at h
  · simp [digits3] at h
  · by_cases hd : (x.isDigit && y.isDigit && z.isDigit) = true
    · simp only [digits3, hd, if_true, Option.some.injEq, Prod.mk.injEq] at h
      obtain ⟨hg, hr⟩ := h
      subst hg; subst hr
      simp only [Bool.and_eq_true] at hd
      exact ⟨rfl, x, y, z, rfl, hd.1.1, hd.1.2, hd.2⟩
    · simp [digits3, hd] at h

theorem optChar_spec (c : Char) (cs : List Char) :
    cs = (optChar c cs).1 ++ (optChar c cs).2 ∧
      ((optChar c cs).1 = [] ∨ (optChar c cs).1 = [c]) := by
  cases cs with
  | nil => simp [optChar]
  | cons x rest =>
    by_cases hx : (x == c) = true
    · have hxc : x = c := by simpa using hx
      subst hxc
      simp [optChar]
    · simp [optChar, hx]

theorem cpfTail_spec {cs t r : List Char} (h : cpfTail cs = some (t, r)) :
    cs = t ++ r ∧
    ((∃ u : Char, t = [u] ∧ u.isDigit = true) ∨
     (∃ u v : Char, t = [u, v] ∧ u.isDigit = true ∧ v.isDigit = true)) ∧
    boundaryOk r = true := by
  rcases cs with _ | ⟨d1, rest⟩
  · simp [cpfTail] at h
  · by_cases hd1 : d1.isDigit = true
    · rcases rest with _ | ⟨d2, rest2⟩
      · simp only [cpfTail, hd1, if_true, Option.some.injEq, Prod.mk.injEq] at h
        obtain ⟨ht, hr⟩ := h
        subst ht; subst hr
        exact ⟨rfl, Or.inl ⟨d1, rfl, hd1⟩, rfl⟩
      · by_cases hd2 : d2.isDigit = true
        · by_cases hb : boundaryOk rest2 = true
          · simp only [cpfTail, hd1, hd2, hb, if_true, Option.some.injEq,
              Prod.mk.injEq] at h
            obtain ⟨ht, hr⟩ := h
            subst ht; subst hr
            exact ⟨rfl, Or.inr ⟨d1, d2, rfl, hd1, hd2⟩, hb⟩
          · simp [cpfTail, hd1, hd2, hb] at h
        · by_cases hb : boundaryOk (d2 :: rest2) = true
          · simp only [cpfTail, hd1, hd2, hb, if_true, if_false, Bool.false_eq_true,
              Option.some.injEq, Prod.mk.injEq] at h
            obtain ⟨ht, hr⟩ := h
            subst ht; subst hr
            exact ⟨rfl, Or.inl ⟨d1, rfl, hd1⟩, hb⟩
          · simp [cpfTail, hd1, hd2, hb] at h
    · simp [cpfTail, hd1] at h

/-- Decomposition of a successful CPF match: the matched fragment is three
digit groups with optional separators and a final 1–2 digit group, the rest
starts at a word boundary, and the match is a prefix of the input. -/
theorem cpfMatchCore_spec {cs m r : List Char}
    (h : cpfMatchCore cs = some (m, r)) :
    ∃ g1 s1 g2 s2 g3 s3 t : List Char,
      m = g1 ++ s1 ++ g2 ++ s2 ++ g3 ++ s3 ++ t ∧
      cs = m ++ r ∧
      (∃ x y z : Char, g1 = [x, y, z] ∧ x.isDigit = true ∧ y.isDigit = true ∧
        z.isDigit = true) ∧
      (s1 = [] ∨ s1 = ['.']) ∧
      (∃ x y z : Char, g2 = [x, y, z] ∧ x.isDigit = true ∧ y.isDigit = true ∧
        z.isDigit = true) ∧
      (s2 = [] ∨ s2 = ['.']) ∧
      (∃ x y z : Char, g3 = [x, y, z] ∧ x.isDigit = true ∧ y.isDigit = true ∧
        z.isDigit = true) ∧
      (s3 = [] ∨ s3 = ['-']) ∧
      ((∃ u : Char, t = [u] ∧ u.isDigit = true) ∨
       (∃ u v : Char, t = [u, v] ∧ u.isDigit = true ∧ v.isDigit = true)) ∧
      boundaryOk r = true := by
  unfold cpfMatchCore at h
  cases h1 : digits3 cs with
  | none => rw [h1] at h; simp at h
  | some pr1 =>
    obtain ⟨g1, r1⟩ := pr1
    rw [h1] at h
    dsimp only at h
    cases h2 : digits3 (optChar '.' r1).2 with
    | none => rw [h2] at h; simp at h
    | some pr2 =>
      obtain ⟨g2, r3⟩ := pr2
      rw [h2] at h
      dsimp only at h
      cases h3 : digits3 (optChar '.' r3).2 with
      | none => rw [h3] at h; simp at h
      | some pr3 =>
        obtain ⟨g3, r5⟩ := pr3
        rw [h3] at h
        dsimp only at h
        cases h4 : cpfTail (optChar '-' r5).2 with
        | none => rw [h4] at h; simp at h
        | some pr4 =>
          obtain ⟨t, r7⟩ := pr4
          rw [h4] at h
          simp only [Option.some.injEq, Prod.mk.injEq] at h
          obtain ⟨hm, hr⟩ := h
          obtain ⟨hcs1, sp1⟩ := digits3_spec h1
          obtain ⟨ho1, hs1⟩ := optChar_spec '.' r1
          obtain ⟨hcs2, sp2⟩ := digits3_spec h2
          obtain ⟨ho2, hs2⟩ := optChar_spec '.' r3
          obtain ⟨hcs3, sp3⟩ := digits3_spec h3
          obtain ⟨ho3, hs3⟩ := optChar_spec '-' r5
          obtain ⟨hct, tsp, hbr⟩ := cpfTail_spec h4
          subst hr
          generalize hO1 : optChar '.' r1 = o1 at hm ho1 hs1 hcs2
          generalize hO2 : optChar '.' r3 = o2 at hm ho2 hs2 hcs3
          generalize hO3 : optChar '-' r5 = o3 at hm ho3 hs3 hct
          refine ⟨g1, o1.1, g2, o2.1, g3, o3.1, t, hm.symm, ?_, sp1, hs1, sp2,
            hs2, sp3, hs3, tsp, hbr⟩
          rw [← hm, hcs1, ho1, hcs2, ho2, hcs3, ho3, hct]
          simp [List.append_assoc]

/-- A grouped national ID at the head of the input, followed by a word
boundary, is matched exactly. -/
theorem cpfMatchCore_grouped {c post : List Char} (hc : GroupedCPF c)
    (hpost : boundaryOk post = true) :
    cpfMatchCore (c ++ post) = some (c, post) := by
  obtain ⟨a, b, c3, d, e, f, g, h1, i, j, k, hceq, hg1, hg2, hg3, hg4⟩ := hc
  subst hceq
  simp [cpfMatchCore, digits3, optChar, cpfTail, hg1.1, hg1.2.1, hg1.2.2,
    hg2.1, hg2.2.1, hg2.2.2, hg3.1, hg3.2.1, hg3.2.2, hg4.1, hg4.2, hpost]

-- A run of digits cannot contain a non-digit character.
theorem digit_run_no_cross {t P Q : List Char} {w : Char}
    (ht : ∀ x ∈ t, x.isDigit = true) (hw : w.isDigit = false)
    (h : t = P ++ w :: Q) : False := by
  induction t generalizing P with
  | nil => cases P <;> simp at h
  | cons a t2 ih =>
    cases P with
    | nil =>
      simp only [List.nil_append, List.cons.injEq] at h
      have hd := ht a (by simp)
      rw [h.1, hw] at hd
      exact absurd hd (by simp)
    | cons p P2 =>
      simp only [List.cons_append, List.cons.injEq] at h
      exact ih (fun x hx => ht x (by simp [hx])) h.2

-- Peeling a run of digits off the front of a split at a non-digit.
theorem digit_run_peel {A B P Q : List Char} {w : Char}
    (hA : ∀ x ∈ A, x.isDigit = true) (hw : w.isDigit = false)
    (h : A ++ B = P ++ w :: Q) :
    ∃ P2, P = A ++ P2 ∧ B = P2 ++ w :: Q := by
  induction A generalizing P with
  | nil => exact ⟨P, rfl, by simpa using h⟩
  | cons a A2 ih =>
    cases P with
    | nil =>
      simp only [List.cons_append, List.nil_append, List.cons.injEq] at h
      have hd := hA a (by simp)
      rw [h.1, hw] at hd
      exact absurd hd (by simp)
    | cons p P2 =>
      simp only [List.cons_append, List.cons.injEq] at h
      obtain ⟨hap, h2⟩ := h
      subst hap
      obtain ⟨P3, hP, hB⟩ := ih (fun x hx => hA x (by simp [hx])) h2
      exact ⟨P3, by rw [hP, List.cons_append], hB⟩

theorem append_eq_split {α : Type} {A B C D : List α} (h : A ++ B = C ++ D)
    (hlen : C.length ≤ A.length) : ∃ E, A = C ++ E ∧ D = E ++ B := by
  induction C generalizing A with
  | nil => exact ⟨A, rfl, by simpa using h.symm⟩
  | cons c C2 ih =>
    cases A with
    | nil => simp at hlen
    | cons a A2 =>
      simp only [List.cons_append, List.cons.injEq] at h
      obtain ⟨hac, h2⟩ := h
      subst hac
      obtain ⟨E, hA, hD⟩ := ih h2 (by simpa using hlen)
      exact ⟨E, by rw [hA, List.cons_append], hD⟩

theorem digit3_run {g : List Char}
    (hg : ∃ x y z : Char, g = [x, y, z] ∧ x.isDigit = true ∧ y.isDigit = true ∧
      z.isDigit = true) : ∀ x ∈ g, x.isDigit = true := by
  obtain ⟨x, y, z, rfl, hx, hy, hz⟩ := hg
  intro a ha
  simp only [List.mem_cons, List.not_mem_nil, or_false] at ha
  rcases ha with rfl | rfl | rfl <;> assumption

theorem digitT_run {t : List Char}
    (ht : (∃ u : Char, t = [u] ∧ u.isDigit = true) ∨
      (∃ u v : Char, t = [u, v] ∧ u.isDigit = true ∧ v.isDigit = true)) :
    ∀ x ∈ t, x.isDigit = true := by
  rcases ht with ⟨u, rfl, hu⟩ | ⟨u, v, rfl, hu, hv⟩ <;>
    intro a ha <;>
    simp only [List.mem_cons, List.not_mem_nil, or_false] at ha
  · rw [ha]; exact hu
  · rcases ha with rfl | rfl <;> assumption

-- Locating the unique non-digit of the matched fragment: it can only be
-- one of the optional separators.
theorem cpf_locate3 {g3 s3 t P Q : List Char} {w : Char}
    (hg3 : ∃ x y z : Char, g3 = [x, y, z] ∧ x.isDigit = true ∧
      y.isDigit = true ∧ z.isDigit = true)
    (hs3 : s3 = [] ∨ s3 = ['-'])
    (ht : (∃ u : Char, t = [u] ∧ u.isDigit = true) ∨
      (∃ u v : Char, t = [u, v] ∧ u.isDigit = true ∧ v.isDigit = true))
    (hw : w.isDigit = false)
    (h : g3 ++ (s3 ++ t) = P ++ w :: Q) :
    s3 = ['-'] ∧ w = '-' ∧ Q = t := by
  obtain ⟨P1, hP1, h1⟩ := digit_run_peel (digit3_run hg3) hw h
  rcases hs3 with rfl | rfl
  · rw [List.nil_append] at h1
    exact absurd h1 (fun hh => digit_run_no_cross (digitT_run ht) hw hh)
  · rcases P1 with _ | ⟨p, P2⟩
    · simp only [List.nil_append, List.cons_append, List.cons.injEq] at h1
      exact ⟨rfl, h1.1.symm, h1.2.symm⟩
    · simp only [List.cons_append, List.cons.injEq] at h1
      exact absurd h1.2 (fun hh => digit_run_no_cross (digitT_run ht) hw hh)

theorem cpf_locate2 {g2 s2 g3 s3 t P Q : List Char} {w : Char}
    (hg2 : ∃ x y z : Char, g2 = [x, y, z] ∧ x.isDigit = true ∧
      y.isDigit = true ∧ z.isDigit = true)
    (hs2 : s2 = [] ∨ s2 = ['.'])
    (hg3 : ∃ x y z : Char, g3 = [x, y, z] ∧ x.isDigit = true ∧
      y.isDigit = true ∧ z.isDigit = true)
    (hs3 : s3 = [] ∨ s3 = ['-'])
    (ht : (∃ u : Char, t = [u] ∧ u.isDigit = true) ∨
      (∃ u v : Char, t = [u, v] ∧ u.isDigit = true ∧ v.isDigit = true))
    (hw : w.isDigit = false)
    (h : g2 ++ (s2 ++ (g3 ++ (s3 ++ t))) = P ++ w :: Q) :
    (s2 = ['.'] ∧ w = '.' ∧ Q = g3 ++ (s3 ++ t)) ∨
    (s3 = ['-'] ∧ w = '-' ∧ Q = t) := by
  obtain ⟨P1, hP1, h1⟩ := digit_run_peel (digit3_run hg2) hw h
  rcases hs2 with rfl | rfl
  · rw [List.nil_append] at h1
    exact Or.inr (cpf_locate3 hg3 hs3 ht hw h1)
  · rcases P1 with _ | ⟨p, P2⟩
    · simp only [List.nil_append, List.cons_append, List.cons.injEq] at h1
      exact Or.inl ⟨rfl, h1.1.symm, h1.2.symm⟩
    · simp only [List.cons_append, List.cons.injEq] at h1
      exact Or.inr (cpf_locate3 hg3 hs3 ht hw h1.2)

theorem cpf_locate1 {g1 s1 g2 s2 g3 s3 t P Q : List Char} {w : Char}
    (hg1 : ∃ x y z : Char, g1 = [x, y, z] ∧ x.isDigit = true ∧
      y.isDigit = true ∧ z.isDigit = true)
    (hs1 : s1 = [] ∨ s1 = ['.'])
    (hg2 : ∃ x y z : Char, g2 = [x, y, z] ∧ x.isDigit = true ∧
      y.isDigit = true ∧ z.isDigit = true)
    (hs2 : s2 = [] ∨ s2 = ['.'])
    (hg3 : ∃ x y z : Char, g3 = [x, y, z] ∧ x.isDigit = true ∧
      y.isDigit = true ∧ z.isDigit = true)
    (hs3 : s3 = [] ∨ s3 = ['-'])
    (ht : (∃ u : Char, t = [u] ∧ u.isDigit = true) ∨
      (∃ u v : Char, t = [u, v] ∧ u.isDigit = true ∧ v.isDigit = true))
    (hw : w.isDigit = false)
    (h : g1 ++ (s1 ++ (g2 ++ (s2 ++ (g3 ++ (s3 ++ t))))) = P ++ w :: Q) :
    (s1 = ['.'] ∧ w = '.' ∧ Q = g2 ++ (s2 ++ (g3 ++ (s3 ++ t)))) ∨
    (s2 = ['.'] ∧ w = '.' ∧ Q = g3 ++ (s3 ++ t)) ∨
    (s3 = ['-'] ∧ w = '-' ∧ Q = t) := by
  obtain ⟨P1, hP1, h1⟩ := digit_run_peel (digit3_run hg1) hw h
  rcases hs1 with rfl | rfl
  · rw [List.nil_append] at h1
    exact Or.inr (cpf_locate2 hg2 hs2 hg3 hs3 ht hw h1)
  · rcases P1 with _ | ⟨p, P2⟩
    · simp only [List.nil_append, List.cons_append, List.cons.injEq] at h1
      exact Or.inl ⟨rfl, h1.1.symm, h1.2.symm⟩
    · simp only [List.cons_append, List.cons.injEq] at h1
      exact Or.inr (cpf_locate2 hg2 hs2 hg3 hs3 ht hw h1.2)

/-- A CPF match starting before a non-word character `w` that is followed
by a grouped national ID can never extend past `w`: the matched fragment
stays inside the prefix `s0`. -/
theorem cpfMatchCore_no_cross {s0 c post m r : List Char} {w : Char}
    (hw : isWordChar w = false) (hc : GroupedCPF c)
    (h : cpfMatchCore (s0 ++ w :: (c ++ post)) = some (m, r)) :
    m.length ≤ s0.length := by
  obtain ⟨ca, cb, cc, cd, ce, cf, cg, ch, ci, cj, ck, hceq, hcd1, hcd2, hcd3,
    hcd4⟩ := hc
  subst hceq
  obtain ⟨g1, s1, g2, s2, g3, s3, t, hm, hcs, sp1, hs1, sp2, hs2, sp3, hs3,
    tsp, hbr⟩ := cpfMatchCore_spec h
  by_contra hgt
  push_neg at hgt
  obtain ⟨E, hmE, hDE⟩ := append_eq_split hcs.symm (Nat.le_of_lt hgt)
  rcases E with _ | ⟨e1, E2⟩
  · rw [List.append_nil] at hmE
    rw [hmE] at hgt
    exact absurd hgt (lt_irrefl _)
  · simp only [List.cons_append, List.cons.injEq] at hDE
    obtain ⟨hew, hcpE⟩ := hDE
    subst hew
    have hshape : g1 ++ (s1 ++ (g2 ++ (s2 ++ (g3 ++ (s3 ++ t))))) =
        s0 ++ w :: E2 := by
      have hmm := hm.symm.trans hmE
      simpa [List.append_assoc] using hmm
    have hwd := isDigit_eq_false_of_not_word hw
    rcases cpf_locate1 sp1 hs1 sp2 hs2 sp3 hs3 tsp hwd hshape with
      ⟨hse, hwe, hQ⟩ | ⟨hse, hwe, hQ⟩ | ⟨hse, hwe, hQ⟩
    · -- the crossing character would be the first optional dot
      subst hQ
      obtain ⟨x, y, z, rfl, hx, hy, hz⟩ := sp2
      obtain ⟨p, q, r3, rfl, hp, hq, hr3⟩ := sp3
      rcases hs2 with rfl | rfl
      · -- no second dot taken: the fourth character matched must be a digit
        rcases hs3 with rfl | rfl <;>
          rcases tsp with ⟨u, rfl, hu⟩ | ⟨u, v, rfl, hu, hv⟩ <;>
        · simp only [List.cons_append, List.nil_append, List.append_assoc] at hcpE
          injection hcpE with e1 h1; injection h1 with e2 h2
          injection h2 with e3 h3; injection h3 with e4 h4
          rw [← e4] at hp
          exact absurd hp (by decide)
      · -- second dot taken: the eighth character matched cannot be a dot
        rcases hs3 with rfl | rfl
        · rcases tsp with ⟨u, rfl, hu⟩ | ⟨u, v, rfl, hu, hv⟩ <;>
          · simp only [List.cons_append, List.nil_append, List.append_assoc] at hcpE
            injection hcpE with e1 h1; injection h1 with e2 h2
            injection h2 with e3 h3; injection h3 with e4 h4
            injection h4 with e5 h5; injection h5 with e6 h6
            injection h6 with e7 h7; injection h7 with e8 h8
            rw [← e8] at hu
            exact absurd hu (by decide)
        · rcases tsp with ⟨u, rfl, hu⟩ | ⟨u, v, rfl, hu, hv⟩ <;>
          · simp only [List.cons_append, List.nil_append, List.append_assoc] at hcpE
            injection hcpE with e1 h1; injection h1 with e2 h2
            injection h2 with e3 h3; injection h3 with e4 h4
            injection h4 with e5 h5; injection h5 with e6 h6
            injection h6 with e7 h7; injection h7 with e8 h8
            exact absurd e8 (by decide)
    · -- the crossing character would be the second optional dot
      subst hQ
      obtain ⟨p, q, r3, rfl, hp, hq, hr3⟩ := sp3
      rcases hs3 with rfl | rfl
      · rcases tsp with ⟨u, rfl, hu⟩ | ⟨u, v, rfl, hu, hv⟩ <;>
        · simp only [List.cons_append, List.nil_append, List.append_assoc] at hcpE
          injection hcpE with e1 h1; injection h1 with e2 h2
          injection h2 with e3 h3; injection h3 with e4 h4
          rw [← e4] at hu
          exact absurd hu (by decide)
      · rcases tsp with ⟨u, rfl, hu⟩ | ⟨u, v, rfl, hu, hv⟩ <;>
        · simp only [List.cons_append, List.nil_append, List.append_assoc] at hcpE
          injection hcpE with e1 h1; injection h1 with e2 h2
          injection h2 with e3 h3; injection h3 with e4 h4
          exact absurd e4 (by decide)
    · -- the crossing character would be the optional dash: then the final
      -- digit group ends inside the ID, where `\b` cannot hold
      subst hQ
      rcases tsp with ⟨u, rfl, hu⟩ | ⟨u, v, rfl, hu, hv⟩
      · simp only [List.cons_append, List.nil_append, List.cons.injEq] at hcpE
        have hword : isWordChar cb = true := isWordChar_of_isDigit hcd1.2.1
        rw [← hcpE.2] at hbr
        simp [boundaryOk, isWordB, hword] at hbr
      · simp only [List.cons_append, List.nil_append, List.cons.injEq] at hcpE
        have hword : isWordChar cc = true := isWordChar_of_isDigit hcd1.2.2
        rw [← hcpE.2.2] at hbr
        simp [boundaryOk, isWordB, hword] at hbr

-- Reduction lemmas for one scanner step.

theorem scanAll_cons_skip {mc : List Char → Option (List Char × List Char × List Char)}
    {fuel : Nat} {prevW : Bool} {ch : Char} {rest : List Char}
    (hgate : (prevW == isWordChar ch) = true) :
    scanAll mc (fuel + 1) prevW (ch :: rest) =
      scanAll mc fuel (isWordChar ch) rest := by
  simp [scanAll, hgate]

theorem scanAll_cons_none {mc : List Char → Option (List Char × List Char × List Char)}
    {fuel : Nat} {prevW : Bool} {ch : Char} {rest : List Char}
    (hgate : (prevW == isWordChar ch) = false)
    (hmc : mc (ch :: rest) = none) :
    scanAll mc (fuel + 1) prevW (ch :: rest) =
      scanAll mc fuel (isWordChar ch) rest := by
  simp [scanAll, hgate, hmc]

theorem scanAll_cons_match {mc : List Char → Option (List Char × List Char × List Char)}
    {fuel : Nat} {prevW : Bool} {ch : Char} {rest emit whole r : List Char}
    (hgate : (prevW == isWordChar ch) = false)
    (hmc : mc (ch :: rest) = some (emit, whole, r)) :
    scanAll mc (fuel + 1) prevW (ch :: rest) =
      emit :: scanAll mc fuel (isWordChar (whole.getLastD ' ')) r := by
  simp [scanAll, hgate, hmc]

theorem mcWhole_eq_some {mc0 : List Char → Option (List Char × List Char)}
    {cs m r : List Char} (h : mc0 cs = some (m, r)) :
    mcWhole mc0 cs = some (m, m, r) := by
  simp [mcWhole, h]

theorem mcWhole_eq_none {mc0 : List Char → Option (List Char × List Char)}
    {cs : List Char} (h : mc0 cs = none) : mcWhole mc0 cs = none := by
  simp [mcWhole, h]

theorem concat_last_eq {α : Type} {E s0 : List α} {w w2 : α}
    (h : E ++ [w] = s0 ++ [w2]) : w2 = w := by
  have h1 := congrArg List.getLast? h
  rw [List.getLast?_concat, List.getLast?_concat] at h1
  exact (Option.some.inj h1).symm

-- A match head is non-digit when the first scanned character is non-digit.
theorem cpfMatchCore_head_digit {cs m r : List Char}
    (h : cpfMatchCore cs = some (m, r)) : m ≠ [] := by
  obtain ⟨g1, s1, g2, s2, g3, s3, t, hm, _, ⟨x, y, z, hg, _, _, _⟩, _⟩ :=
    cpfMatchCore_spec h
  subst hg
  rw [hm]
  simp

/-- Main scanning lemma for C2: whenever the text is a prefix `s` whose
last character (if any) is not a word character, followed by a grouped
national ID and a right word boundary, the scanner finds the ID. -/
theorem cpf_scan_finds {c post : List Char} (hc : GroupedCPF c)
    (hpost : boundaryOk post = true) :
    ∀ fuel s prevW, (s ++ (c ++ post)).length ≤ fuel →
      (s = [] → prevW = false) →
      (∀ s0 w, s = s0 ++ [w] → isWordChar w = false) →
      c ∈ scanAll (mcWhole cpfMatchCore) fuel prevW (s ++ (c ++ post)) := by
  intro fuel
  induction fuel with
  | zero =>
    intro s prevW hlen _ _
    exfalso
    obtain ⟨ca, cb, cc, cd, ce, cf, cg, ch, ci, cj, ck, hceq, _, _, _, _⟩ := hc
    rw [hceq] at hlen
    simp [List.length_append] at hlen
  | succ f ih =>
    intro s prevW hlen hnil hlast
    cases s with
    | nil =>
      have hpw := hnil rfl
      subst hpw
      have hmatch := cpfMatchCore_grouped hc hpost
      obtain ⟨ca, cb, cc, cd, ce, cf, cg, ch, ci, cj, ck, hceq, hcd1, hcd2,
        hcd3, hcd4⟩ := hc
      have hword : isWordChar ca = true := isWordChar_of_isDigit hcd1.1
      rw [List.nil_append]
      rw [hceq] at hmatch ⊢
      rw [show ([ca, cb, cc, '.', cd, ce, cf, '.', cg, ch, ci, '-', cj, ck] ++
          post) = ca :: (cb :: cc :: '.' :: cd :: ce :: cf :: '.' :: cg :: ch ::
          ci :: '-' :: cj :: ck :: post) from by simp] at hmatch ⊢
      rw [scanAll_cons_match (by simp [hword]) (mcWhole_eq_some hmatch)]
      exact List.mem_cons_self _ _
    | cons x s2 =>
      have hxrest : (x :: s2) ++ (c ++ post) = x :: (s2 ++ (c ++ post)) := rfl
      rw [hxrest] at hlen ⊢
      by_cases hgate : (prevW == isWordChar x) = true
      · rw [scanAll_cons_skip hgate]
        refine ih s2 (isWordChar x) (by simp at hlen ⊢; omega) ?_ ?_
        · intro hs2
          subst hs2
          exact hlast [] x rfl
        · intro s0 w hsw
          exact hlast (x :: s0) w (by rw [hsw]; rfl)
      · rw [Bool.not_eq_true] at hgate
        cases hmcc : cpfMatchCore (x :: (s2 ++ (c ++ post))) with
        | none =>
          rw [scanAll_cons_none hgate (mcWhole_eq_none hmcc)]
          refine ih s2 (isWordChar x) (by simp at hlen ⊢; omega) ?_ ?_
          · intro hs2
            subst hs2
            exact hlast [] x rfl
          · intro s0 w hsw
            exact hlast (x :: s0) w (by rw [hsw]; rfl)
        | some pr =>
          obtain ⟨m, r⟩ := pr
          rw [scanAll_cons_match hgate (mcWhole_eq_some hmcc)]
          rcases List.eq_nil_or_concat (x :: s2) with hxnil | ⟨s0, w, hsw⟩
          · simp at hxnil
          · rw [List.concat_eq_append] at hsw
            have hw := hlast s0 w hsw
            have hcseq : x :: (s2 ++ (c ++ post)) = s0 ++ (w :: (c ++ post)) := by
              rw [← hxrest, hsw]
              simp [List.append_assoc]
            rw [hcseq] at hmcc
            have hle := cpfMatchCore_no_cross hw hc hmcc
            obtain ⟨g1, s1, g2, s2x, g3, s3, t, hm, hcs, sp1, _⟩ :=
              cpfMatchCore_spec hmcc
            have hmne : m ≠ [] := cpfMatchCore_head_digit hmcc
            obtain ⟨E, hs0E, hrE⟩ := append_eq_split hcs hle
            have hr2 : r = (E ++ [w]) ++ (c ++ post) := by
              rw [hrE]
              simp [List.append_assoc]
            refine List.mem_cons_of_mem _ ?_
            rw [hr2]
            refine ih (E ++ [w]) _ ?_ ?_ ?_
            · -- fuel: the match is nonempty, so the rest is shorter
              have hlm : (x :: (s2 ++ (c ++ post))).length = m.length + r.length := by
                rw [hcseq, hcs]
                simp
              have hm1 : 1 ≤ m.length := by
                cases m with
                | nil => exact absurd rfl hmne
                | cons hd tl => simp
              rw [← hr2]
              simp only [List.length_cons] at hlen hlm
              omega
            · intro habs
              simp at habs
            · intro s02 w2 hsw2
              rw [concat_last_eq hsw2]
              exact hw

-- Helper lemmas for transporting the occurrence hypothesis through
-- `normalize` (strip + non-breaking-space replacement).

def replNbsp (ch : Char) : Char := if ch.toNat == 0xA0 then ' ' else ch

theorem normalize_data (text : String) :
    (normalize text).data = (pyStrip text.data).map replNbsp := rfl

theorem replNbsp_of_isDigit {ch : Char} (h : ch.isDigit = true) :
    replNbsp ch = ch := by
  obtain ⟨h1, h2⟩ := isDigit_toNat_bounds h
  unfold replNbsp
  rw [if_neg]
  simp only [beq_iff_eq]
  omega

theorem replNbsp_not_word {ch : Char} (h : isWordChar ch = false) :
    isWordChar (replNbsp ch) = false := by
  unfold replNbsp
  by_cases hn : (ch.toNat == 0xA0) = true
  · rw [if_pos hn]
    decide
  · rw [if_neg (by simpa using hn)]
    exact h

theorem dropWhile_append_head {p : Char → Bool} {A : List Char} {b : Char}
    {B : List Char} (hb : p b = false) :
    (A ++ b :: B).dropWhile p = A.dropWhile p ++ b :: B := by
  induction A with
  | nil => simp [List.dropWhile, hb]
  | cons a A2 ih =>
    by_cases ha : p a = true
    · simp [List.dropWhile, ha, ih]
    · simp [List.dropWhile, ha]

theorem isWordB_append_left {A B : List Char} (hA : A ≠ []) :
    isWordB (A ++ B) = isWordB A := by
  cases A with
  | nil => exact absurd rfl hA
  | cons a A2 => rfl

theorem isWordB_map_replNbsp {l : List Char} (h : isWordB l = false) :
    isWordB (l.map replNbsp) = false := by
  cases l with
  | nil => rfl
  | cons a l2 => exact replNbsp_not_word h

/-- `normalize` preserves a grouped-ID occurrence together with its word
boundaries (the strip can only eat whitespace around it, and the
non-breaking-space replacement maps non-word characters to non-word
characters and leaves the ID itself unchanged). -/
theorem normalize_split {text : String} {pre c post : List Char}
    (hc : GroupedCPF c)
    (hsplit : text.data = pre ++ c ++ post)
    (hpre : leftBoundaryOk pre = true)
    (hpost : boundaryOk post = true) :
    ∃ pre2 post2, (normalize text).data = pre2 ++ c ++ post2 ∧
      leftBoundaryOk pre2 = true ∧ boundaryOk post2 = true := by
  obtain ⟨ca, cb, cc, cd, ce, cf, cg, ch, ci, cj, ck, hceq, hcd1, hcd2, hcd3,
    hcd4⟩ := hc
  -- step 1: the leading strip stops at the first digit of the ID
  have hheadws : isPyWs ca = false := isPyWs_eq_false_of_isDigit hcd1.1
  have h1 : (text.data).dropWhile isPyWs =
      pre.dropWhile isPyWs ++ (c ++ post) := by
    rw [hsplit, List.append_assoc, hceq]
    rw [show ([ca, cb, cc, '.', cd, ce, cf, '.', cg, ch, ci, '-', cj, ck] ++
        post : List Char) = ca :: ([cb, cc, '.', cd, ce, cf, '.', cg, ch, ci,
        '-', cj, ck] ++ post) from rfl]
    rw [dropWhile_append_head hheadws]
  -- step 2: the trailing strip stops at the last digit of the ID
  have hlastws : isPyWs ck = false := isPyWs_eq_false_of_isDigit hcd4.2
  have h2 : pyStrip text.data =
      pre.dropWhile isPyWs ++ (c ++ dropTrailWhile isPyWs post) := by
    unfold pyStrip dropTrailWhile
    rw [h1]
    rw [show (pre.dropWhile isPyWs ++ (c ++ post)).reverse =
        post.reverse ++ (c.reverse ++ (pre.dropWhile isPyWs).reverse) from by
      simp [List.reverse_append, List.append_assoc]]
    rw [hceq]
    rw [show (([ca, cb, cc, '.', cd, ce, cf, '.', cg, ch, ci, '-', cj,
        ck] : List Char).reverse ++ (pre.dropWhile isPyWs).reverse) =
        ck :: ([cj, '-', ci, ch, cg, '.', cf, ce, cd, '.', cc, cb, ca] ++
          (pre.dropWhile isPyWs).reverse) from by simp]
    rw [dropWhile_append_head hlastws]
    rw [show (ck : Char) :: ([cj, '-', ci, ch, cg, '.', cf, ce, cd, '.', cc,
        cb, ca] ++ (pre.dropWhile isPyWs).reverse) =
        ([ca, cb, cc, '.', cd, ce, cf, '.', cg, ch, ci, '-', cj,
          ck] : List Char).reverse ++ (pre.dropWhile isPyWs).reverse from by
      simp]
    simp [List.reverse_append, List.append_assoc]
  -- step 3: the replacement fixes the ID and preserves the boundaries
  have hmapc : c.map replNbsp = c := by
    rw [hceq]
    simp [replNbsp_of_isDigit hcd1.1, replNbsp_of_isDigit hcd1.2.1,
      replNbsp_of_isDigit hcd1.2.2, replNbsp_of_isDigit hcd2.1,
      replNbsp_of_isDigit hcd2.2.1, replNbsp_of_isDigit hcd2.2.2,
      replNbsp_of_isDigit hcd3.1, replNbsp_of_isDigit hcd3.2.1,
      replNbsp_of_isDigit hcd3.2.2, replNbsp_of_isDigit hcd4.1,
      replNbsp_of_isDigit hcd4.2, (by decide : replNbsp '.' = '.'),
      (by decide : replNbsp '-' = '-')]
  refine ⟨(pre.dropWhile isPyWs).map replNbsp,
    (dropTrailWhile isPyWs post).map replNbsp, ?_, ?_, ?_⟩
  · rw [normalize_data, h2]
    simp only [List.map_append, hmapc, List.append_assoc]
  · -- left boundary is preserved
    unfold leftBoundaryOk at hpre ⊢
    rw [← List.map_reverse]
    rcases hP : (pre.dropWhile isPyWs).reverse with _ | ⟨p0, P2⟩
    · rfl
    · have h3 := congrArg List.reverse
        (List.takeWhile_append_dropWhile isPyWs pre)
      rw [List.reverse_append] at h3
      have hrevpre : pre.reverse = (pre.dropWhile isPyWs).reverse ++
          (pre.takeWhile isPyWs).reverse := h3.symm
      rw [hrevpre, isWordB_append_left (by rw [hP]; simp)] at hpre
      rw [hP] at hpre
      rw [Bool.not_eq_true'] at hpre ⊢
      exact isWordB_map_replNbsp hpre
  · -- right boundary is preserved
    have h3 := congrArg List.reverse
      (List.takeWhile_append_dropWhile isPyWs post.reverse)
    rw [List.reverse_append, List.reverse_reverse] at h3
    rcases hT : dropTrailWhile isPyWs post with _ | ⟨t0, T2⟩
    · rfl
    · have hT2 : (post.reverse.dropWhile isPyWs).reverse = t0 :: T2 := hT
      rw [hT2] at h3
      rw [← h3] at hpost
      simp only [boundaryOk, isWordB, List.map_cons, List.cons_append,
        Bool.not_eq_true'] at hpost ⊢
      exact replNbsp_not_word hpost

theorem leftBoundaryOk_concat (s0 : List Char) (w : Char) :
    leftBoundaryOk (s0 ++ [w]) = !isWordChar w := by
  simp [leftBoundaryOk, List.reverse_append, isWordB]

/-- A grouped national ID preceded by a left word boundary and followed by
a right word boundary is among the scanner's matches. -/
theorem cpf_findall_finds {pre c post : List Char} (hc : GroupedCPF c)
    (hpre : leftBoundaryOk pre = true) (hpost : boundaryOk post = true) :
    c ∈ cpfFindall (pre ++ c ++ post) := by
  unfold cpfFindall
  rw [List.append_assoc]
  exact cpf_scan_finds hc hpost (pre ++ (c ++ post)).length pre false
    (le_refl _) (fun _ => rfl)
    (fun s0 w hsw => by
      rw [hsw, leftBoundaryOk_concat, Bool.not_eq_true'] at hpre
      exact hpre)

/-- Deduplication keeps at least one copy of every element (unless it was
already seen). -/
theorem dedupAux_mem {x : String} : ∀ (l seen : List String),
    x ∈ l → x ∈ seen ∨ x ∈ dedupAux seen l := by
  intro l
  induction l with
  | nil =>
    intro seen h
    exact absurd h (List.not_mem_nil x)
  | cons y r ih =>
    intro seen hmem
    unfold dedupAux
    by_cases hy : y ∈ seen
    · rw [if_pos hy]
      rcases List.mem_cons.mp hmem with he | hr
      · exact Or.inl (by rw [he]; exact hy)
      · exact ih seen hr
    · rw [if_neg hy]
      rcases List.mem_cons.mp hmem with he | hr
      · exact Or.inr (by rw [he]; exact List.mem_cons_self y _)
      · rcases ih (y :: seen) hr with hs | hd
        · rcases List.mem_cons.mp hs with he2 | hs2
          · exact Or.inr (by rw [he2]; exact List.mem_cons_self y _)
          · exact Or.inl hs2
        · exact Or.inr (List.mem_cons_of_mem y hd)

/-- A grouped ID has exactly 11 digit characters, so the format validator
accepts it. -/
theorem cpf_formato_valido_grouped {c : List Char} (hc : GroupedCPF c) :
    cpf_formato_valido (String.mk c) = true := by
  obtain ⟨ca, cb, cc, cd, ce, cf, cg, ch, ci, cj, ck, hceq, hcd1, hcd2, hcd3,
    hcd4⟩ := hc
  subst hceq
  simp [cpf_formato_valido, soDigitos, List.filter_cons, hcd1.1, hcd1.2.1,
    hcd1.2.2, hcd2.1, hcd2.2.1, hcd2.2.2, hcd3.1, hcd3.2.1, hcd3.2.2,
    hcd4.1, hcd4.2]

/-- C2 counterexample: on the text "123.456.789-09" the cpf list of the
resulting mapping stores the matched fragment exactly as written — with
its dots and dash — and does NOT contain the normalized digit string
"12345678909"; the non-digit stripping happens only inside the validator
and is never applied to the stored value. -/
theorem cpf_stored_with_separators :
    dget (detect_pii (fun _ => []) "123.456.789-09") "cpf" =
      ["123.456.789-09"] ∧
    "12345678909" ∉ dget (detect_pii (fun _ => []) "123.456.789-09") "cpf" := by
  constructor
  · decide
  · decide

/-- C2 (amended): for every input text containing a valid-looking national
ID in grouped format (ddd.ddd.ddd-dd) delimited by word boundaries on both
sides, the cpf list of the resulting mapping contains the matched fragment
as it appears in the text (separators included, not the digit-only
normalization) and the verdict is "NÃO PÚBLICO". -/
theorem cpf_grouped_detected (ner : String → List (String × String))
    (text : String) (pre c post : List Char)
    (hc : GroupedCPF c)
    (hsplit : text.data = pre ++ c ++ post)
    (hpre : leftBoundaryOk pre = true)
    (hpost : boundaryOk post = true) :
    String.mk c ∈ dget (detect_pii ner text) "cpf" ∧
    classificar_pedido (detect_pii ner text) = some "NÃO PÚBLICO" := by
  obtain ⟨pre2, post2, hdata, hpre2, hpost2⟩ :=
    normalize_split hc hsplit hpre hpost
  have hfind : c ∈ cpfFindall (normalize text).data := by
    rw [hdata]
    exact cpf_findall_finds hc hpre2 hpost2
  have hfindS : String.mk c ∈ cpfFindallS (normalize text) :=
    List.mem_map_of_mem String.mk hfind
  have hdedup : String.mk c ∈ extractDedup (cpfFindallS (normalize text)) := by
    rcases dedupAux_mem (cpfFindallS (normalize text)) [] hfindS with h | h
    · exact absurd h (List.not_mem_nil _)
    · exact h
  have hlist : String.mk c ∈ dget (extract_all (normalize text)) "cpf" := by
    show String.mk c ∈ (extract_all (normalize text) "cpf").getD []
    have he : extract_all (normalize text) "cpf" =
        some ((extractDedup (cpfFindallS (normalize text))).filter
          cpf_formato_valido) := rfl
    rw [he]
    exact List.mem_filter.mpr ⟨hdedup, cpf_formato_valido_grouped hc⟩
  have hkept : String.mk c ∈ (passCpf (extract_all (normalize text))).1 :=
    (pass_cpf_kept _ _).mpr hlist
  have hmem : String.mk c ∈ dget (detect_pii ner text) "cpf" := by
    show String.mk c ∈ (detect_pii ner text "cpf").getD []
    rw [detect_pii_cpf]
    exact hkept
  refine ⟨hmem, ?_⟩
  have hspec := classificar_spec (detect_pii ner text) _ _ _ _ _ _
    (detect_pii_cpf ner text) (detect_pii_rg ner text)
    (detect_pii_end ner text) (detect_pii_email ner text)
    (detect_pii_tel ner text) (detect_pii_nome ner text)
  refine hspec.1.mpr (Or.inl ?_)
  intro hnil
  rw [hnil] at hkept
  exact absurd hkept (List.not_mem_nil _)

/-- C2 (amended) witness. -/
theorem cpf_grouped_detected_witness :
    String.mk ['1', '2', '3', '.', '4', '5', '6', '.', '7', '8', '9', '-',
      '0', '9'] ∈ dget (detect_pii (fun _ => []) "123.456.789-09") "cpf" ∧
    classificar_pedido (detect_pii (fun _ => []) "123.456.789-09") =
      some "NÃO PÚBLICO" :=
  cpf_grouped_detected (fun _ => []) "123.456.789-09" []
    ['1', '2', '3', '.', '4', '5', '6', '.', '7', '8', '9', '-', '0', '9'] []
    ⟨'1', '2', '3', '4', '5', '6', '7', '8', '9', '0', '9', rfl,
      by decide, by decide, by decide, by decide⟩
    (by decide) rfl rfl


end Pii
